import Mathlib

/-!
# http-fetch: a page mirroring tool

A shallow embedding of `main.go` (functions `getExtension` and `RetrieveResource`) together with
theorems about it.

The program talks to the network, to the file system, to a random source and to an HTML library.
Those collaborators are not part of the repository; they appear here as the fields of a `World`
(one oracle per library call) and as a small file-system model.  The state carries a `tick`
that advances at every library call whose outcome the program cannot predict, so that the same
call may behave differently at different times.

Go strings are modelled by `String`; `getExtension` works on the character list of its argument
(the separator `.` is a single byte, so splitting characters and splitting bytes agree).
-/

namespace HttpFetch

/-! ## Path utilities (`main.go`, lines 57-66) -/

/-- The pieces of a character list between occurrences of `sep`
(`strings.Split` for a one-character separator): always at least one piece. -/
def splitOn (sep : Char) : List Char → List (List Char)
  | [] => [[]]
  | c :: cs =>
    if c = sep then [] :: splitOn sep cs
    else
      match splitOn sep cs with
      | [] => [[c]]
      | p :: ps => (c :: p) :: ps

/-- Go's `strings.Split(s, sep)` for a one-character separator. -/
def Split (s : String) (sep : Char) : List String :=
  (splitOn sep s.data).map String.mk

/-- The function `getExtension`: the final period-delimited component of `filename` and
`true` when splitting at `.` gives more than one component, otherwise `("", false)`. -/
def getExtension (filename : String) : String × Bool :=
  let fnSplit := Split filename '.'
  if fnSplit.length > 1 then
    (fnSplit.getD (fnSplit.length - 1) "", true)
  else
    ("", false)

/-! ## Data model -/

/-- The struct `PageData` (lines 68-73). -/
structure PageData where
  Links : List String
  Images : List String
  Stylesheets : List String
  Javascripts : List String
  deriving DecidableEq

/-- The error values `RetrieveResource` builds with `fmt.Errorf`, one constructor per format
string, carrying the format's arguments. -/
inductive FetchError where
  /-- The value of `"Error getting URL: %s. (%s) Skipping...\n"` (line 83). -/
  | getURL (urlString msg : String)
  /-- The value of `"Unable to create file: %s (%s)\n"` (line 90). -/
  | createFile (filename msg : String)
  /-- The value of `"Status code error: %d %s"` (line 97). -/
  | statusCode (code : Int) (status : String)
  /-- The value of `"Unable to rebuild page with error: %s"` (line 199). -/
  | rebuild (msg : String)
  /-- The value of `"Unable to save URL: %s to %s. (%s)\n"` (lines 205 and 211). -/
  | saveURL (urlString filename msg : String)
  deriving DecidableEq

/-- An element node of a parsed document: its tag name and its attributes in source order. -/
structure Element where
  tag : String
  attrs : List (String × String)
  deriving DecidableEq

/-- A parsed document, as the list of its element nodes in document order.  `Find` and `Each`
visit elements in this order, and `SetAttr` changes neither the order nor the tags. -/
abbrev Doc := List Element

/-- The value of the first attribute called `name`, if there is one (goquery's `Attr`). -/
def attrValue (name : String) : List (String × String) → Option String
  | [] => none
  | a :: rest => if a.1 = name then some a.2 else attrValue name rest

/-- The attribute list with the first attribute called `name` set to `val`, or with a new
attribute appended when there is none (goquery's `SetAttr`). -/
def setAttrValue (name val : String) : List (String × String) → List (String × String)
  | [] => [(name, val)]
  | a :: rest => if a.1 = name then (a.1, val) :: rest else a :: setAttrValue name val rest

/-- The call `s.Attr(name)`. -/
def Element.Attr (s : Element) (name : String) : Option String :=
  attrValue name s.attrs

/-- The call `s.SetAttr(name, val)`. -/
def Element.SetAttr (s : Element) (name val : String) : Element :=
  { s with attrs := setAttrValue name val s.attrs }

/-- A response body: the bytes that can be read from it and the read error that ends the
stream, if the stream does not end normally. -/
structure Body where
  data : String
  readErr : Option String
  deriving DecidableEq

/-- The fields of `http.Response` the program uses. -/
structure Response where
  StatusCode : Int
  Status : String
  Body : Body
  deriving DecidableEq

/-- A file-system entry. -/
inductive Node where
  | file (content : String)
  | dir
  deriving DecidableEq

/-- A file system: the entries by path, the most recent entry for a path first. -/
abbrev FS := List (String × Node)

/-- The entry at `path`, if any. -/
def FS.get : FS → String → Option Node
  | [], _ => none
  | (p, n) :: rest, path => if p = path then some n else FS.get rest path

/-- The file system with the entry at `path` replaced by `n`. -/
def FS.set (fs : FS) (path : String) (n : Node) : FS :=
  (path, n) :: fs

/-- A regular file exists at `path`. -/
def FS.isFile (fs : FS) (path : String) : Bool :=
  match fs.get path with
  | some (Node.file _) => true
  | _ => false

/-- The mutable part of the world: the file system, and a counter of the library calls made
so far. -/
structure State where
  fs : FS
  tick : Nat
  deriving DecidableEq

/-- The state after one more library call. -/
def State.step (st : State) : State :=
  { st with tick := st.tick + 1 }

/-- The collaborators of the program.  Every oracle whose answer may change over time takes the
current `tick`. -/
structure World where
  /-- The call `http.Get(urlString)`: a transport error or a response. -/
  httpGet : Nat → String → Except String Response
  /-- The error of `os.Create(path)`, `none` when the file is created. -/
  createErr : Nat → String → Option String
  /-- The error of `os.Mkdir(path, os.ModePerm)` on a path that does not exist yet. -/
  mkdirErr : Nat → String → Option String
  /-- A write fault of `io.Copy` into the file at a path: `some (k, msg)` when only the first
  `k` bytes of the data reach the file before the write fails with `msg`. -/
  copyFault : Nat → String → String → Option (Nat × String)
  /-- The string of the identifier `uuid.New()` draws. -/
  uuid : Nat → String
  /-- The call `goquery.NewDocumentFromReader(body)`. -/
  parse : Body → Except String Doc
  /-- The string of `base.Parse(ref)` for the parsed URL `base` of the first argument. -/
  resolve : String → String → Except String String
  /-- The call `doc.Html()`. -/
  render : Doc → Except String String

/-- The call `os.Create(path)`: on success the path holds an empty regular file. -/
def osCreate (w : World) (st : State) (path : String) : State × Option String :=
  match w.createErr st.tick path with
  | some msg => (st.step, some msg)
  | none => ({ fs := st.fs.set path (Node.file ""), tick := st.tick + 1 }, none)

/-- The statement `_ = os.Mkdir(path, os.ModePerm)`: nothing changes when the path exists or
the call fails, otherwise the path becomes a directory. -/
def osMkdir (w : World) (st : State) (path : String) : State :=
  match st.fs.get path with
  | some _ => st.step
  | none =>
    match w.mkdirErr st.tick path with
    | some _ => st.step
    | none => { fs := st.fs.set path Node.dir, tick := st.tick + 1 }

/-- The call `io.Copy(f, src)` where `f` is the file created at `path` and `src` yields
`data` and then `readErr`.  A write fault leaves the bytes written before it in the file. -/
def ioCopy (w : World) (st : State) (path data : String) (readErr : Option String) :
    State × Option String :=
  match w.copyFault st.tick path data with
  | some (k, msg) =>
    ({ fs := st.fs.set path (Node.file (String.mk (data.data.take k))), tick := st.tick + 1 },
      some msg)
  | none => ({ fs := st.fs.set path (Node.file data), tick := st.tick + 1 }, readErr)

/-! ## `RetrieveResource` (lines 75-216) -/

/-- How a call of `RetrieveResource` ends. -/
inductive Result where
  /-- The call returns `(pageData, err)`. -/
  | ret (pageData : PageData) (err : Option FetchError) (st : State)
  /-- The call reached `log.Fatal`: the process has terminated. -/
  | exit (st : State)
  /-- The recursion is deeper than the fuel given to the model. -/
  | noFuel
  deriving DecidableEq

/-- How a visit of `Each` ends: normally, with the value built so far, or like `Result`. -/
inductive Visit (α : Type) where
  | next (a : α) (pageData : PageData) (st : State)
  | exit (st : State)
  | noFuel

/-- Post-process the value of a normal visit. -/
def Visit.map {α β : Type} (f : α → β) : Visit α → Visit β
  | Visit.next a pd st => Visit.next (f a) pd st
  | Visit.exit st => Visit.exit st
  | Visit.noFuel => Visit.noFuel

/-- The three kinds of asset `RetrieveResource` mirrors. -/
inductive AssetKind where
  | img
  | link
  | script
  deriving DecidableEq

/-- The selector given to `doc.Find`. -/
def AssetKind.selector : AssetKind → String
  | AssetKind.img => "img"
  | AssetKind.link => "link"
  | AssetKind.script => "script"

/-- The attribute holding the reference, also the one given to `SetAttr`. -/
def AssetKind.attr : AssetKind → String
  | AssetKind.img => "src"
  | AssetKind.link => "href"
  | AssetKind.script => "src"

/-- The reference the closure reads from the element, `none` when the guards of the closure
skip the element (lines 120, 145-146, 172). -/
def AssetKind.source (k : AssetKind) (s : Element) : Option String :=
  match k with
  | AssetKind.img => s.Attr "src"
  | AssetKind.link =>
    match s.Attr "rel" with
    | some linkType => if linkType = "stylesheet" then s.Attr "href" else none
    | none => none
  | AssetKind.script => s.Attr "src"

/-- The `append` onto the list of `PageData` that belongs to the kind (lines 127, 153, 179). -/
def AssetKind.record (k : AssetKind) (pd : PageData) (fn : String) : PageData :=
  match k with
  | AssetKind.img => { pd with Images := pd.Images ++ [fn] }
  | AssetKind.link => { pd with Stylesheets := pd.Stylesheets ++ [fn] }
  | AssetKind.script => { pd with Javascripts := pd.Javascripts ++ [fn] }

/-- The list of `PageData` that belongs to the kind. -/
def AssetKind.recorded (k : AssetKind) (pd : PageData) : List String :=
  match k with
  | AssetKind.img => pd.Images
  | AssetKind.link => pd.Stylesheets
  | AssetKind.script => pd.Javascripts

/-- The local file name of an asset (lines 122-125, 148-151, 174-177):
`filename-res/uuid`, followed by `.` and the extension of the reference when it has one. -/
def localName (filename uuid src : String) : String :=
  let fn := filename ++ "-res/" ++ uuid
  match getExtension src with
  | (extension, true) => fn ++ "." ++ extension
  | (_, false) => fn

/-- The body of the closures given to `Each` for images, stylesheets and scripts (lines
120-142, 145-169, 172-194), which differ in `k` only.  `fetch` is the recursive call. -/
def assetClosure (fetch : State → String → String → Result) (w : World)
    (urlString filename : String) (k : AssetKind) (s : Element) (pd : PageData) (st : State) :
    Visit Element :=
  match k.source s with
  | none => Visit.next s pd st
  | some src =>
    let fn := localName filename (w.uuid st.tick) src
    let pd := k.record pd fn
    let st := st.step
    match w.resolve urlString src with
    | Except.error _ => Visit.next s pd st
    | Except.ok uri =>
      match fetch st uri fn with
      | Result.ret _ (some _) st => Visit.next s pd st
      | Result.ret _ none st => Visit.next (s.SetAttr k.attr fn) pd st
      | Result.exit st => Visit.exit st
      | Result.noFuel => Visit.noFuel

/-- The statement `doc.Find(sel).Each(f)`: `f` visits the elements with tag `sel` in document
order; the result is the document after the visits. -/
def findEach (sel : String) (f : Element → PageData → State → Visit Element) :
    Doc → PageData → State → Visit Doc
  | [], pd, st => Visit.next [] pd st
  | s :: rest, pd, st =>
    if s.tag = sel then
      match f s pd st with
      | Visit.next s1 pd st => (findEach sel f rest pd st).map (fun rest1 => s1 :: rest1)
      | Visit.exit st => Visit.exit st
      | Visit.noFuel => Visit.noFuel
    else
      (findEach sel f rest pd st).map (fun rest1 => s :: rest1)

/-- The `href` values the closure of `doc.Find("a").Each` appends to `Links`
(lines 110-114). -/
def anchorLinks : Doc → List String
  | [] => []
  | s :: rest =>
    if s.tag = "a" then
      match s.Attr "href" with
      | some link => link :: anchorLinks rest
      | none => anchorLinks rest
    else anchorLinks rest

/-- The three `Find(...).Each(...)` statements of lines 119-195, one after the other. -/
def rewriteAssets (fetch : State → String → String → Result) (w : World)
    (urlString filename : String) (doc : Doc) (pd : PageData) (st : State) : Visit Doc :=
  match findEach "img" (assetClosure fetch w urlString filename AssetKind.img) doc pd st with
  | Visit.next doc pd st =>
    match findEach "link" (assetClosure fetch w urlString filename AssetKind.link) doc pd st with
    | Visit.next doc pd st =>
      findEach "script" (assetClosure fetch w urlString filename AssetKind.script) doc pd st
    | Visit.exit st => Visit.exit st
    | Visit.noFuel => Visit.noFuel
  | Visit.exit st => Visit.exit st
  | Visit.noFuel => Visit.noFuel

/-- The body of `RetrieveResource`, with `fetch` standing for the recursive calls. -/
def retrieveBody (fetch : State → String → String → Result) (w : World) (st : State)
    (urlString filename : String) : Result :=
  let pageData : PageData := { Links := [], Images := [], Stylesheets := [], Javascripts := [] }
  match w.httpGet st.tick urlString with
  | Except.error msg => Result.ret pageData (some (FetchError.getURL urlString msg)) st.step
  | Except.ok response =>
    match osCreate w st.step filename with
    | (st, some msg) => Result.ret pageData (some (FetchError.createFile filename msg)) st
    | (st, none) =>
      if (getExtension filename).2 = true ∧ (getExtension filename).1 = "html" then
        if response.StatusCode ≠ 200 then
          Result.ret pageData
            (some (FetchError.statusCode response.StatusCode response.Status)) st
        else
          let st := osMkdir w st (filename ++ "-res")
          match w.parse response.Body with
          | Except.error _ => Result.exit st
          | Except.ok doc =>
            let pageData := { pageData with Links := pageData.Links ++ anchorLinks doc }
            match rewriteAssets fetch w urlString filename doc pageData st with
            | Visit.exit st => Result.exit st
            | Visit.noFuel => Result.noFuel
            | Visit.next doc pageData st =>
              match w.render doc with
              | Except.error msg => Result.ret pageData (some (FetchError.rebuild msg)) st
              | Except.ok html =>
                match ioCopy w st filename html none with
                | (st, some msg) =>
                  Result.ret pageData (some (FetchError.saveURL urlString filename msg)) st
                | (st, none) => Result.ret pageData none st
      else
        match ioCopy w st filename response.Body.data response.Body.readErr with
        | (st, some msg) =>
          Result.ret pageData (some (FetchError.saveURL urlString filename msg)) st
        | (st, none) => Result.ret pageData none st

/-- The function `RetrieveResource`.  The recursion of the program is not bounded; the model
takes the number of nested calls it may make and answers `noFuel` beyond it. -/
def RetrieveResource (w : World) : Nat → State → String → String → Result
  | 0 => fun _ _ _ => Result.noFuel
  | fuel + 1 => fun st urlString filename =>
    retrieveBody (RetrieveResource w fuel) w st urlString filename

/-! ## States and relations the theorems speak about -/

/-- The `PageData` with which the loops over the assets start: the anchors are recorded. -/
def startPageData (doc : Doc) : PageData :=
  { Links := [] ++ anchorLinks doc, Images := [], Stylesheets := [], Javascripts := [] }

/-- The state with which the loops over the assets start, when the file was created: the
state after `http.Get`, `os.Create(filename)` and `os.Mkdir(filename + "-res")`. -/
def assetsStart (w : World) (st : State) (filename : String) : State :=
  osMkdir w (osCreate w st.step filename).1 (filename ++ "-res")

/-- The document, the page data and the state with which the `Each` loop of kind `k` starts:
the loops of the kinds before `k` have run. -/
def passStart (fetch : State → String → String → Result) (w : World)
    (urlString filename : String) (k : AssetKind) (doc : Doc) (pd : PageData) (st : State) :
    Visit Doc :=
  match k with
  | AssetKind.img => Visit.next doc pd st
  | AssetKind.link =>
    findEach "img" (assetClosure fetch w urlString filename AssetKind.img) doc pd st
  | AssetKind.script =>
    match findEach "img" (assetClosure fetch w urlString filename AssetKind.img) doc pd st with
    | Visit.next doc pd st =>
      findEach "link" (assetClosure fetch w urlString filename AssetKind.link) doc pd st
    | Visit.exit st => Visit.exit st
    | Visit.noFuel => Visit.noFuel

/-- Every regular file of `a` is a regular file of `b`. -/
def FilesKept (a b : State) : Prop :=
  ∀ p : String, a.fs.isFile p = true → b.fs.isFile p = true

/-- The regular files of `b` that are not files of `a` are `filename` or lie at or below a
local name drawn for `filename` at a tick between those of `a` and `b`. -/
def Frame (w : World) (filename : String) (a b : State) : Prop :=
  a.tick ≤ b.tick ∧
  ∀ p : String, b.fs.isFile p = true →
    a.fs.isFile p = true ∨ p = filename ∨
    ∃ (t : Nat) (src rest : String),
      a.tick ≤ t ∧ t < b.tick ∧ p = localName filename (w.uuid t) src ++ rest

/-- The lists of `PageData` only grow. -/
def PageDataLe (a b : PageData) : Prop :=
  ∀ (k : AssetKind) (x : String), x ∈ k.recorded a → x ∈ k.recorded b

/-- The cause of a failed asset is one that arises before the asset's file exists: the
reference does not resolve (`none`), the request fails, or the file cannot be created. -/
def beforeFile : Option FetchError → Bool
  | none => true
  | some (FetchError.getURL _ _) => true
  | some (FetchError.createFile _ _) => true
  | some _ => false

/-- The cause of a failed asset is a failed copy into the asset's file. -/
def duringCopy : Option FetchError → Bool
  | some (FetchError.saveURL _ _ _) => true
  | _ => false

/-- The asset with reference `src` and local name `fn`, visited in state `sti`, fails: with
cause `none` its reference does not resolve against the page, with cause `some e` the nested
fetch returns the error `e`. -/
def AssetFails (fetch : State → String → String → Result) (w : World) (urlString src fn : String)
    (sti : State) : Option FetchError → Prop
  | none => ∃ m, w.resolve urlString src = Except.error m
  | some e => ∃ uri pdn stn,
      w.resolve urlString src = Except.ok uri ∧
        fetch sti.step uri fn = Result.ret pdn (some e) stn

/-! ## Concrete worlds used to run the model -/

/-- The `PageData` a call starts with (`var pageData PageData`). -/
def emptyPageData : PageData :=
  { Links := [], Images := [], Stylesheets := [], Javascripts := [] }

/-- The result is a status error (`"Status code error: ..."`). -/
def Result.isStatusError : Result → Bool
  | Result.ret _ (some (FetchError.statusCode _ _)) _ => true
  | _ => false

/-- A small HTML library: three known page bodies, and a reader error is a parse error. -/
def demoParse (b : Body) : Except String Doc :=
  match b.readErr with
  | some e => Except.error e
  | none =>
    if b.data = "<img src=a.png>" then
      Except.ok [{ tag := "img", attrs := [("src", "a.png")] }]
    else if b.data = "<img src=x.html>" then
      Except.ok [{ tag := "img", attrs := [("src", "x.html")] }]
    else if b.data = "<img src=a.png><script src=b.js>" then
      Except.ok [{ tag := "img", attrs := [("src", "a.png")] },
                 { tag := "script", attrs := [("src", "b.js")] }]
    else Except.ok []

/-- A small serializer: the tags with their attributes. -/
def demoRender (doc : Doc) : Except String String :=
  Except.ok (String.join (doc.map fun e =>
    "<" ++ e.tag ++ String.join (e.attrs.map fun a => " " ++ a.1 ++ "=" ++ a.2) ++ ">"))

/-- A world with a given server and given faults of file creation and of copying; identifiers
are drawn from a fixed list. -/
def demoWorld (http : String → Except String Response) (createErr : String → Option String)
    (copyFault : String → Option (Nat × String)) : World where
  httpGet := fun _ u => http u
  createErr := fun _ p => createErr p
  mkdirErr := fun _ _ => none
  copyFault := fun _ p _ => copyFault p
  uuid := fun n => ["u0", "u1", "u2", "u3", "u4", "u5", "u6", "u7", "u8", "u9"].getD n "uu"
  parse := demoParse
  resolve := fun _ ref => if ref = "" then Except.error "empty reference" else
    Except.ok ("http://h/" ++ ref)
  render := demoRender

/-- A server with one resource, at `http://h/p`. -/
def oneResource (r : Response) (u : String) : Except String Response :=
  if u = "http://h/p" then Except.ok r else Except.error "no such host"

/-- A server with a page at `http://h/p` and an asset at `http://h/` followed by `name`. -/
def pageAndAsset (page : Response) (name : String) (asset : Response) (u : String) :
    Except String Response :=
  if u = "http://h/p" then Except.ok page
  else if u = "http://h/" ++ name then Except.ok asset
  else Except.error "no such host"

/-- A response with status 200 and the given body. -/
def okResponse (body : String) : Response :=
  { StatusCode := 200, Status := "200 OK", Body := { data := body, readErr := none } }

/-- A page with one image, and the image. -/
def mirrorWorld : World :=
  demoWorld (pageAndAsset (okResponse "<img src=a.png>") "a.png" (okResponse "PNG"))
    (fun _ => none) (fun _ => none)

/-- A page with one image, and the image; the copy into the image's file fails after one
byte. -/
def brokenCopyWorld : World :=
  demoWorld (pageAndAsset (okResponse "<img src=a.png>") "a.png" (okResponse "PNG"))
    (fun _ => none)
    (fun p => if p = "output/h/p.html-res/u3.png" then some (1, "disk full") else none)

/-- A page with an image and a script; the script is served, the image is not. -/
def missingImageWorld : World :=
  demoWorld
    (pageAndAsset (okResponse "<img src=a.png><script src=b.js>") "b.js" (okResponse "JS"))
    (fun _ => none) (fun _ => none)

/-- The state in which the loops over the assets of `output/h/p.html` start in the worlds
above. -/
def demoStart : State :=
  { fs := [("output/h/p.html-res", Node.dir), ("output/h/p.html", Node.file "")], tick := 3 }

/-! ## Theorems -/

/-! ### `getExtension` and the local names -/

theorem splitOn_ne_nil (sep : Char) (l : List Char) : splitOn sep l ≠ [] := by
  cases l with
  | nil => simp [splitOn]
  | cons c cs =>
    unfold splitOn
    split
    · simp
    · split <;> simp

theorem splitOn_of_not_mem (sep : Char) (l : List Char) (h : sep ∉ l) : splitOn sep l = [l] := by
  induction l with
  | nil => rfl
  | cons c cs ih =>
    have hc : ¬ c = sep := fun e => h (by simp [e])
    have hcs : sep ∉ cs := fun e => h (by simp [e])
    simp [splitOn, hc, ih hcs]

theorem splitOn_append_sep (sep : Char) (a b : List Char) :
    splitOn sep (a ++ sep :: b) = splitOn sep a ++ splitOn sep b := by
  induction a with
  | nil => simp [splitOn]
  | cons c cs ih =>
    by_cases hc : c = sep
    · simp [splitOn, hc, ih]
    · have e : splitOn sep (c :: cs ++ sep :: b)
          = (match splitOn sep (cs ++ sep :: b) with
              | [] => [[c]]
              | p :: ps => (c :: p) :: ps) := by
        simp [splitOn, hc]
      have e2 : splitOn sep (c :: cs)
          = (match splitOn sep cs with
              | [] => [[c]]
              | p :: ps => (c :: p) :: ps) := by
        simp [splitOn, hc]
      rw [e, e2, ih]
      cases hs : splitOn sep cs with
      | nil => exact absurd hs (splitOn_ne_nil sep cs)
      | cons p ps => simp

theorem exists_last_sep (sep : Char) (l : List Char) (h : sep ∈ l) :
    ∃ a b, l = a ++ sep :: b ∧ sep ∉ b := by
  induction l with
  | nil => simp at h
  | cons c cs ih =>
    by_cases hcs : sep ∈ cs
    · obtain ⟨a, b, hab, hb⟩ := ih hcs
      exact ⟨c :: a, b, by simp [hab], hb⟩
    · have hc : sep = c := by
        rcases List.mem_cons.1 h with e | e
        · exact e
        · exact absurd e hcs
      exact ⟨[], cs, by simp [hc], hcs⟩

theorem getD_length_append_singleton {α : Type} (l : List α) (x d : α) :
    (l ++ [x]).getD ((l ++ [x]).length - 1) d = x := by
  simp [List.getD]

theorem getExtension_data_append_sep (a b : List Char) (hb : '.' ∉ b) :
    getExtension (String.mk (a ++ '.' :: b)) = (String.mk b, true) := by
  have hne := splitOn_ne_nil '.' a
  have h1 : Split (String.mk (a ++ '.' :: b)) '.'
      = (splitOn '.' a).map String.mk ++ [String.mk b] := by
    simp [Split, splitOn_append_sep, splitOn_of_not_mem '.' b hb]
  unfold getExtension
  simp only [h1]
  have hlen : ((splitOn '.' a).map String.mk ++ [String.mk b]).length > 1 := by
    have : 0 < (splitOn '.' a).length := List.length_pos.2 hne
    simp; omega
  rw [if_pos hlen, getD_length_append_singleton]

theorem getExtension_of_not_mem (s : String) (h : '.' ∉ s.data) :
    getExtension s = ("", false) := by
  simp [getExtension, Split, splitOn_of_not_mem '.' s.data h]

theorem getExtension_append_dot (p t : String) (ht : '.' ∉ t.data) :
    getExtension (p ++ "." ++ t) = (t, true) := by
  have h : p ++ "." ++ t = String.mk (p.data ++ '.' :: t.data) := by
    apply String.ext; simp
  rw [h, getExtension_data_append_sep _ _ ht]

theorem getExtension_snd_iff (s : String) : (getExtension s).2 = true ↔ '.' ∈ s.data := by
  by_cases h : '.' ∈ s.data
  · obtain ⟨a, b, hab, hb⟩ := exists_last_sep '.' s.data h
    have hs : s = String.mk (a ++ '.' :: b) := String.ext (by simp [hab])
    rw [hs, getExtension_data_append_sep a b hb]; simp
  · simp [getExtension_of_not_mem s h, h]

theorem getExtension_fst_not_mem (s : String) : '.' ∉ (getExtension s).1.data := by
  by_cases h : '.' ∈ s.data
  · obtain ⟨a, b, hab, hb⟩ := exists_last_sep '.' s.data h
    have hs : s = String.mk (a ++ '.' :: b) := String.ext (by simp [hab])
    rw [hs, getExtension_data_append_sep a b hb]; exact hb
  · simp [getExtension_of_not_mem s h]

/-- Claim C8.  For every string `s`: if `s` contains a `.` then `getExtension s = (t, true)`
where `t` is what follows the final `.` of `s` (`s` is `p ++ "." ++ t` and `t` has no `.`; `t`
may be empty); if `s` contains no `.` then `getExtension s = ("", false)`; and
`"xxx.yyy.html"` gives `("html", true)`. -/
theorem getExtension_spec (s : String) :
    ('.' ∈ s.data →
      ∃ p t : String, s = p ++ "." ++ t ∧ '.' ∉ t.data ∧ getExtension s = (t, true)) ∧
    ('.' ∉ s.data → getExtension s = ("", false)) ∧
    getExtension "xxx.yyy.html" = ("html", true) := by
  refine ⟨fun h => ?_, getExtension_of_not_mem s, by decide⟩
  obtain ⟨a, b, hab, hb⟩ := exists_last_sep '.' s.data h
  refine ⟨String.mk a, String.mk b, ?_, hb, ?_⟩
  · apply String.ext; simp [hab]
  · have hs : s = String.mk (a ++ '.' :: b) := String.ext (by simp [hab])
    rw [hs, getExtension_data_append_sep a b hb]

theorem getExtension_spec_witness :
    ('.' ∈ "xxx.yyy.html".data →
      ∃ p t : String, "xxx.yyy.html" = p ++ "." ++ t ∧ '.' ∉ t.data ∧
        getExtension "xxx.yyy.html" = (t, true)) ∧
    ('.' ∉ "xxx.yyy.html".data → getExtension "xxx.yyy.html" = ("", false)) ∧
    getExtension "xxx.yyy.html" = ("html", true) :=
  getExtension_spec "xxx.yyy.html"

theorem localName_of_ext (p u r e : String) (h : getExtension r = (e, true)) :
    localName p u r = p ++ "-res/" ++ u ++ "." ++ e := by
  simp [localName, h]

theorem localName_of_no_ext (p u r : String) (h : (getExtension r).2 = false) :
    localName p u r = p ++ "-res/" ++ u := by
  unfold localName
  cases hr : getExtension r with
  | mk e b =>
    rw [hr] at h
    simp at h
    subst h
    rfl

theorem localName_shape (p u r : String) :
    ∃ sfx : String, localName p u r = p ++ "-res/" ++ u ++ sfx := by
  cases hr : getExtension r with
  | mk e b =>
    cases b with
    | true => exact ⟨"." ++ e, by rw [localName_of_ext p u r e hr]; simp [String.append_assoc]⟩
    | false =>
      refine ⟨"", ?_⟩
      rw [localName_of_no_ext p u r (by rw [hr])]
      simp

/-- Claim C9.  Generated local names do not collide: for every parent target path `p`, any
references `r1` and `r2`, and any two distinct identifiers `u1` and `u2` of the same length,
the local names built from `u1` and from `u2` are different strings. -/
theorem localName_ne (p u1 u2 r1 r2 : String) (hne : u1 ≠ u2) (hlen : u1.length = u2.length) :
    localName p u1 r1 ≠ localName p u2 r2 := by
  obtain ⟨s1, h1⟩ := localName_shape p u1 r1
  obtain ⟨s2, h2⟩ := localName_shape p u2 r2
  intro h
  rw [h1, h2] at h
  have hd := congrArg String.data h
  simp only [String.data_append, List.append_assoc, List.append_cancel_left_eq] at hd
  have := (List.append_inj hd (show u1.data.length = u2.data.length from hlen)).1
  exact hne (String.ext this)

theorem localName_ne_witness :
    localName "output/h/p.html" "3f2a" "a.png" ≠ localName "output/h/p.html" "3f2b" "a.png" :=
  localName_ne _ _ _ _ _ (by decide) (by decide)

/-- Claim C10.  The HTML classification of a nested asset is decided by its reference alone:
for an identifier `u` without `.`, the local name `n` built for the reference `r` has
`getExtension n = ("html", true)` exactly when `getExtension r = ("html", true)`, and whenever
`getExtension r = (e, true)` also `getExtension n = (e, true)`. -/
theorem localName_getExtension (p u r : String) (hu : '.' ∉ u.data) :
    (getExtension (localName p u r) = ("html", true) ↔ getExtension r = ("html", true)) ∧
    ∀ e : String, getExtension r = (e, true) → getExtension (localName p u r) = (e, true) := by
  have key : ∀ e : String, getExtension r = (e, true) →
      getExtension (localName p u r) = (e, true) := by
    intro e he
    have hne : '.' ∉ e.data := by
      have := getExtension_fst_not_mem r
      rw [he] at this
      exact this
    rw [localName_of_ext p u r e he]
    exact getExtension_append_dot _ _ hne
  refine ⟨?_, key⟩
  cases hr : getExtension r with
  | mk e b =>
    cases b with
    | true =>
      rw [key e hr]
    | false =>
      have hn : localName p u r = p ++ "-res/" ++ u := localName_of_no_ext p u r (by rw [hr])
      rw [hn]
      constructor
      · intro h
        exfalso
        by_cases hp : '.' ∈ p.data
        · obtain ⟨a, b, hab, hb⟩ := exists_last_sep '.' p.data hp
          have hs : p ++ "-res/" ++ u = String.mk (a ++ '.' :: (b ++ "-res/".data ++ u.data)) := by
            apply String.ext
            simp only [String.data_append, hab, List.append_assoc, List.cons_append]
          have hb2 : '.' ∉ b ++ "-res/".data ++ u.data := by
            simp only [List.mem_append, not_or]
            exact ⟨⟨hb, by decide⟩, hu⟩
          rw [hs, getExtension_data_append_sep _ _ hb2] at h
          have hl : (b ++ "-res/".data ++ u.data).length = 4 :=
            congrArg (fun x => x.1.length) h
          have h5 : "-res/".data.length = 5 := by decide
          simp only [List.length_append, h5] at hl
          omega
        · have hn2 : '.' ∉ (p ++ "-res/" ++ u).data := by
            simp only [String.data_append, List.mem_append, not_or]
            exact ⟨⟨hp, by decide⟩, hu⟩
          rw [getExtension_of_not_mem _ hn2] at h
          exact absurd (congrArg Prod.snd h) (by decide)
      · intro h
        exact absurd (congrArg Prod.snd h) (by simp)

theorem localName_getExtension_witness :
    (getExtension (localName "output/h/p.html" "3f2a" "x/index.html") = ("html", true) ↔
      getExtension "x/index.html" = ("html", true)) ∧
    ∀ e : String, getExtension "x/index.html" = (e, true) →
      getExtension (localName "output/h/p.html" "3f2a" "x/index.html") = (e, true) :=
  localName_getExtension _ _ _ (by decide)

/-! ### A call on a target that is not HTML -/

theorem osCreate_ok (w : World) (st : State) (path : String)
    (h : w.createErr st.tick path = none) :
    osCreate w st path = ({ fs := st.fs.set path (Node.file ""), tick := st.tick + 1 }, none) := by
  simp [osCreate, h]

theorem FS.get_set_self (fs : FS) (path : String) (n : Node) :
    (fs.set path n).get path = some n := by
  simp [FS.set, FS.get]

theorem FS.get_set_of_ne (fs : FS) (path q : String) (n : Node) (h : path ≠ q) :
    (fs.set path n).get q = fs.get q := by
  simp [FS.set, FS.get, h]

/-- Claim C3.  For every target path that is not classified as HTML and every response,
whatever its status code: if the request, the file creation and the copy succeed, then
`RetrieveResource` returns no error and an empty `PageData`, and the file at the target path
holds exactly the bytes of the response body. -/
theorem RetrieveResource_non_html (w : World) (fuel : Nat) (st : State)
    (urlString filename : String) (response : Response)
    (hty : getExtension filename ≠ ("html", true))
    (hget : w.httpGet st.tick urlString = Except.ok response)
    (hcreate : w.createErr (st.tick + 1) filename = none)
    (hcopy : w.copyFault (st.tick + 2) filename response.Body.data = none)
    (hread : response.Body.readErr = none) :
    ∃ st1 : State,
      RetrieveResource w (fuel + 1) st urlString filename =
        Result.ret { Links := [], Images := [], Stylesheets := [], Javascripts := [] } none st1 ∧
      st1.fs.get filename = some (Node.file response.Body.data) := by
  have hty2 : ¬ ((getExtension filename).2 = true ∧ (getExtension filename).1 = "html") := by
    intro h
    apply hty
    exact Prod.ext h.2 h.1
  refine ⟨{ fs := (st.fs.set filename (Node.file "")).set filename
              (Node.file response.Body.data), tick := st.tick + 3 }, ?_, ?_⟩
  · simp only [RetrieveResource, retrieveBody, hget]
    rw [osCreate_ok w st.step filename hcreate]
    simp only [hty2, if_false, ioCopy, State.step, hcopy, hread]
  · exact FS.get_set_self _ _ _

theorem RetrieveResource_non_html_witness :
    ∃ st1 : State,
      RetrieveResource
          (demoWorld (oneResource ⟨404, "404 Not Found", ⟨"gone", none⟩⟩)
            (fun _ => none) (fun _ => none))
          1 ⟨[], 0⟩ "http://h/p" "output/h/p.HTML" =
        Result.ret { Links := [], Images := [], Stylesheets := [], Javascripts := [] } none st1 ∧
      st1.fs.get "output/h/p.HTML" = some (Node.file "gone") :=
  RetrieveResource_non_html
    (demoWorld (oneResource ⟨404, "404 Not Found", ⟨"gone", none⟩⟩) (fun _ => none) (fun _ => none))
    0 ⟨[], 0⟩ "http://h/p" "output/h/p.HTML" ⟨404, "404 Not Found", ⟨"gone", none⟩⟩
    (by decide) rfl (by decide) (by decide) (by decide)

/-! ### The loops over the elements -/

theorem Visit.map_eq_next {α β : Type} (f : α → β) (v : Visit α) (b : β) (pd : PageData)
    (st : State) (h : v.map f = Visit.next b pd st) :
    ∃ a, v = Visit.next a pd st ∧ b = f a := by
  cases v with
  | next a pd1 st1 =>
    simp only [Visit.map, Visit.next.injEq] at h
    obtain ⟨h1, h2, h3⟩ := h
    subst h1 h2 h3
    exact ⟨a, rfl, rfl⟩
  | exit s => simp [Visit.map] at h
  | noFuel => simp [Visit.map] at h

theorem findEach_cons_inv (sel : String) (f : Element → PageData → State → Visit Element)
    (s : Element) (rest : Doc) (pd pd2 : PageData) (st st2 : State) (out : Doc)
    (h : findEach sel f (s :: rest) pd st = Visit.next out pd2 st2) :
    ∃ (s1 : Element) (pd1 : PageData) (st1 : State) (rest1 : Doc),
      (if s.tag = sel then f s pd st = Visit.next s1 pd1 st1
        else (s1 = s ∧ pd1 = pd ∧ st1 = st)) ∧
      findEach sel f rest pd1 st1 = Visit.next rest1 pd2 st2 ∧ out = s1 :: rest1 := by
  by_cases ht : s.tag = sel
  · simp only [findEach, ht, if_true] at h
    cases hf : f s pd st with
    | next s1 pd1 st1 =>
      rw [hf] at h
      obtain ⟨rest1, hr, ho⟩ := Visit.map_eq_next _ _ _ _ _ h
      exact ⟨s1, pd1, st1, rest1, by simp [ht], hr, ho⟩
    | exit s => rw [hf] at h; simp at h
    | noFuel => rw [hf] at h; simp at h
  · simp only [findEach, ht, if_false] at h
    obtain ⟨rest1, hr, ho⟩ := Visit.map_eq_next _ _ _ _ _ h
    exact ⟨s, pd, st, rest1, by simp [ht], hr, ho⟩

theorem findEach_append_inv (sel : String) (f : Element → PageData → State → Visit Element)
    (a b : Doc) (pd pd2 : PageData) (st st2 : State) (out : Doc)
    (h : findEach sel f (a ++ b) pd st = Visit.next out pd2 st2) :
    ∃ (a1 : Doc) (pd1 : PageData) (st1 : State) (b1 : Doc),
      findEach sel f a pd st = Visit.next a1 pd1 st1 ∧
      findEach sel f b pd1 st1 = Visit.next b1 pd2 st2 ∧ out = a1 ++ b1 := by
  induction a generalizing pd st out with
  | nil => exact ⟨[], pd, st, out, rfl, h, rfl⟩
  | cons s rest ih =>
    obtain ⟨s1, pd1, st1, rest1, hs, hr, ho⟩ := findEach_cons_inv sel f s (rest ++ b) _ _ _ _ _ h
    obtain ⟨a1, pd3, st3, b1, ha, hb, ho2⟩ := ih _ _ _ hr
    refine ⟨s1 :: a1, pd3, st3, b1, ?_, hb, by simp [ho, ho2]⟩
    by_cases ht : s.tag = sel
    · simp only [ht, if_true] at hs
      simp [findEach, ht, hs, ha, Visit.map]
    · simp only [ht, if_false] at hs
      obtain ⟨e1, e2, e3⟩ := hs
      subst e1 e2 e3
      simp [findEach, ht, ha, Visit.map]

theorem findEach_length (sel : String) (f : Element → PageData → State → Visit Element)
    (doc : Doc) (pd pd2 : PageData) (st st2 : State) (out : Doc)
    (h : findEach sel f doc pd st = Visit.next out pd2 st2) : out.length = doc.length := by
  induction doc generalizing pd st out with
  | nil =>
    simp only [findEach, Visit.next.injEq] at h
    rw [← h.1]
  | cons s rest ih =>
    obtain ⟨s1, pd1, st1, rest1, _, hr, ho⟩ := findEach_cons_inv sel f s rest _ _ _ _ _ h
    rw [ho, List.length_cons, List.length_cons, ih _ _ _ hr]

/-- A loop leaves the elements it does not select as they are. -/
theorem findEach_get_of_ne (sel : String) (f : Element → PageData → State → Visit Element)
    (doc : Doc) (pd pd2 : PageData) (st st2 : State) (out : Doc)
    (h : findEach sel f doc pd st = Visit.next out pd2 st2) (i : Nat) (e : Element)
    (he : doc.get? i = some e) (hne : e.tag ≠ sel) : out.get? i = some e := by
  induction doc generalizing pd st out i with
  | nil => simp at he
  | cons s rest ih =>
    obtain ⟨s1, pd1, st1, rest1, hs, hr, ho⟩ := findEach_cons_inv sel f s rest _ _ _ _ _ h
    subst ho
    cases i with
    | zero =>
      simp only [List.get?_cons_zero, Option.some.injEq] at he
      subst he
      simp only [hne, if_false] at hs
      simp [hs.1]
    | succ j =>
      simp only [List.get?_cons_succ] at he ⊢
      exact ih _ _ _ hr j he

/-- A relation between the page data and state before and after, which holds across every
visit of the closure, holds across the loop. -/
theorem findEach_rel (R : PageData × State → PageData × State → Prop)
    (hrefl : ∀ x, R x x) (htrans : ∀ x y z, R x y → R y z → R x z)
    (sel : String) (f : Element → PageData → State → Visit Element)
    (hf : ∀ s pd st s1 pd1 st1, f s pd st = Visit.next s1 pd1 st1 → R (pd, st) (pd1, st1))
    (doc : Doc) (pd pd2 : PageData) (st st2 : State) (out : Doc)
    (h : findEach sel f doc pd st = Visit.next out pd2 st2) : R (pd, st) (pd2, st2) := by
  induction doc generalizing pd st out with
  | nil =>
    simp only [findEach, Visit.next.injEq] at h
    obtain ⟨_, h2, h3⟩ := h
    subst h2 h3
    exact hrefl _
  | cons s rest ih =>
    obtain ⟨s1, pd1, st1, rest1, hs, hr, _⟩ := findEach_cons_inv sel f s rest _ _ _ _ _ h
    have h1 : R (pd, st) (pd1, st1) := by
      by_cases ht : s.tag = sel
      · simp only [ht, if_true] at hs
        exact hf _ _ _ _ _ _ hs
      · simp only [ht, if_false] at hs
        obtain ⟨_, e2, e3⟩ := hs
        subst e2 e3
        exact hrefl _
    exact htrans _ _ _ h1 (ih _ _ _ hr)

/-! ### The closure -/

/-- The ways in which a visit of the closure continues the loop. -/
theorem assetClosure_next_inv (fetch : State → String → String → Result) (w : World)
    (urlString filename : String) (k : AssetKind) (s s1 : Element) (pd pd1 : PageData)
    (st st1 : State)
    (h : assetClosure fetch w urlString filename k s pd st = Visit.next s1 pd1 st1) :
    (k.source s = none ∧ s1 = s ∧ pd1 = pd ∧ st1 = st) ∨
    ∃ src, k.source s = some src ∧
      pd1 = k.record pd (localName filename (w.uuid st.tick) src) ∧
      ((∃ m, w.resolve urlString src = Except.error m ∧ s1 = s ∧ st1 = st.step) ∨
       (∃ uri pdn e, w.resolve urlString src = Except.ok uri ∧
          fetch st.step uri (localName filename (w.uuid st.tick) src)
            = Result.ret pdn (some e) st1 ∧ s1 = s) ∨
       (∃ uri pdn, w.resolve urlString src = Except.ok uri ∧
          fetch st.step uri (localName filename (w.uuid st.tick) src)
            = Result.ret pdn none st1 ∧
          s1 = s.SetAttr k.attr (localName filename (w.uuid st.tick) src))) := by
  unfold assetClosure at h
  cases hsrc : k.source s with
  | none =>
    rw [hsrc] at h
    simp only [Visit.next.injEq] at h
    exact Or.inl ⟨rfl, h.1.symm, h.2.1.symm, h.2.2.symm⟩
  | some src =>
    rw [hsrc] at h
    simp only at h
    refine Or.inr ⟨src, rfl, ?_⟩
    cases hres : w.resolve urlString src with
    | error m =>
      rw [hres] at h
      simp only [Visit.next.injEq] at h
      exact ⟨h.2.1.symm, Or.inl ⟨m, rfl, h.1.symm, h.2.2.symm⟩⟩
    | ok uri =>
      rw [hres] at h
      simp only at h
      cases hfe : fetch st.step uri (localName filename (w.uuid st.tick) src) with
      | ret pdn e stn =>
        rw [hfe] at h
        cases e with
        | none =>
          simp only [Visit.next.injEq] at h
          obtain ⟨h1, h2, h3⟩ := h
          subst h3
          exact ⟨h2.symm, Or.inr (Or.inr ⟨uri, pdn, rfl, hfe, h1.symm⟩)⟩
        | some e =>
          simp only [Visit.next.injEq] at h
          obtain ⟨h1, h2, h3⟩ := h
          subst h3
          exact ⟨h2.symm, Or.inr (Or.inl ⟨uri, pdn, e, rfl, hfe, h1.symm⟩)⟩
      | exit stn => rw [hfe] at h; simp at h
      | noFuel => rw [hfe] at h; simp at h

/-- A relation on states that holds across a library call and across every nested fetch
holds across a visit of the closure. -/
theorem assetClosure_rel (R : State → State → Prop) (hrefl : ∀ x, R x x)
    (fetch : State → String → String → Result) (w : World) (urlString filename : String)
    (hstep : ∀ st : State, R st st.step)
    (hfetch : ∀ (st : State) (src uri : String) pdn e st1,
      fetch st.step uri (localName filename (w.uuid st.tick) src) = Result.ret pdn e st1 →
        R st st1)
    (k : AssetKind) (s s1 : Element) (pd pd1 : PageData) (st st1 : State)
    (h : assetClosure fetch w urlString filename k s pd st = Visit.next s1 pd1 st1) :
    R st st1 := by
  rcases assetClosure_next_inv _ _ _ _ _ _ _ _ _ _ _ h with
    ⟨_, _, _, h4⟩ | ⟨src, _, _, ⟨m, _, _, h4⟩ | ⟨uri, pdn, e, _, hf, _⟩ | ⟨uri, pdn, _, hf, _⟩⟩
  · rw [h4]; exact hrefl _
  · rw [h4]; exact hstep _
  · exact hfetch _ _ _ _ _ _ hf
  · exact hfetch _ _ _ _ _ _ hf

theorem PageDataLe_record (k : AssetKind) (pd : PageData) (fn : String) :
    PageDataLe pd (k.record pd fn) := by
  intro k2 x hx
  cases k <;> cases k2 <;> simp_all [AssetKind.record, AssetKind.recorded]

theorem mem_recorded_record (k : AssetKind) (pd : PageData) (fn : String) :
    fn ∈ k.recorded (k.record pd fn) := by
  cases k <;> simp [AssetKind.record, AssetKind.recorded]

theorem assetClosure_pageData (fetch : State → String → String → Result) (w : World)
    (urlString filename : String) (k : AssetKind) (s s1 : Element) (pd pd1 : PageData)
    (st st1 : State)
    (h : assetClosure fetch w urlString filename k s pd st = Visit.next s1 pd1 st1) :
    PageDataLe pd pd1 := by
  rcases assetClosure_next_inv _ _ _ _ _ _ _ _ _ _ _ h with ⟨_, _, h3, _⟩ | ⟨src, _, h3, _⟩
  · rw [h3]; exact fun _ _ hx => hx
  · rw [h3]; exact PageDataLe_record _ _ _

/-! ### The three loops -/

theorem rewriteAssets_inv (fetch : State → String → String → Result) (w : World)
    (urlString filename : String) (doc out : Doc) (pd pd3 : PageData) (st st3 : State)
    (h : rewriteAssets fetch w urlString filename doc pd st = Visit.next out pd3 st3) :
    ∃ d1 pd1 st1 d2 pd2 st2,
      findEach "img" (assetClosure fetch w urlString filename AssetKind.img) doc pd st
        = Visit.next d1 pd1 st1 ∧
      findEach "link" (assetClosure fetch w urlString filename AssetKind.link) d1 pd1 st1
        = Visit.next d2 pd2 st2 ∧
      findEach "script" (assetClosure fetch w urlString filename AssetKind.script) d2 pd2 st2
        = Visit.next out pd3 st3 := by
  unfold rewriteAssets at h
  cases h1 : findEach "img" (assetClosure fetch w urlString filename AssetKind.img) doc pd st with
  | next d1 pd1 st1 =>
    rw [h1] at h
    simp only at h
    cases h2 : findEach "link" (assetClosure fetch w urlString filename AssetKind.link)
        d1 pd1 st1 with
    | next d2 pd2 st2 =>
      rw [h2] at h
      exact ⟨d1, pd1, st1, d2, pd2, st2, rfl, h2, h⟩
    | exit s => rw [h2] at h; simp at h
    | noFuel => rw [h2] at h; simp at h
  | exit s => rw [h1] at h; simp at h
  | noFuel => rw [h1] at h; simp at h

/-- The loop over the scripts starts where `passStart` says: the three loops are the loop over
the scripts run from the start of its pass. -/
theorem rewriteAssets_eq_passStart (fetch : State → String → String → Result) (w : World)
    (urlString filename : String) (doc : Doc) (pd : PageData) (st : State) :
    rewriteAssets fetch w urlString filename doc pd st =
      match passStart fetch w urlString filename AssetKind.script doc pd st with
      | Visit.next doc pd st =>
        findEach "script" (assetClosure fetch w urlString filename AssetKind.script) doc pd st
      | Visit.exit st => Visit.exit st
      | Visit.noFuel => Visit.noFuel := by
  unfold rewriteAssets passStart
  cases findEach "img" (assetClosure fetch w urlString filename AssetKind.img) doc pd st with
  | next d1 pd1 st1 =>
    cases findEach "link" (assetClosure fetch w urlString filename AssetKind.link) d1 pd1 st1
      <;> rfl
  | exit s => rfl
  | noFuel => rfl

theorem loop_rel (R : State → State → Prop) (hrefl : ∀ x, R x x)
    (htrans : ∀ x y z, R x y → R y z → R x z)
    (fetch : State → String → String → Result) (w : World) (urlString filename : String)
    (hstep : ∀ st : State, R st st.step)
    (hfetch : ∀ (st : State) (src uri : String) pdn e st1,
      fetch st.step uri (localName filename (w.uuid st.tick) src) = Result.ret pdn e st1 →
        R st st1)
    (sel : String) (k : AssetKind) (doc out : Doc) (pd pd2 : PageData) (st st2 : State)
    (h : findEach sel (assetClosure fetch w urlString filename k) doc pd st
      = Visit.next out pd2 st2) : R st st2 :=
  findEach_rel (fun x y => R x.2 y.2) (fun x => hrefl x.2)
    (fun x y z h1 h2 => htrans x.2 y.2 z.2 h1 h2) sel _
    (fun s pd st s1 pd1 st1 hc =>
      assetClosure_rel R hrefl fetch w urlString filename hstep hfetch k s s1 pd pd1 st st1 hc)
    doc pd pd2 st st2 out h

theorem loop_pageData (fetch : State → String → String → Result) (w : World)
    (urlString filename : String) (sel : String) (k : AssetKind) (doc out : Doc)
    (pd pd2 : PageData) (st st2 : State)
    (h : findEach sel (assetClosure fetch w urlString filename k) doc pd st
      = Visit.next out pd2 st2) : PageDataLe pd pd2 :=
  findEach_rel (fun x y => PageDataLe x.1 y.1) (fun _ _ _ hx => hx)
    (fun _ _ _ h1 h2 k x hx => h2 k x (h1 k x hx)) sel _
    (fun s pd st s1 pd1 st1 hc =>
      assetClosure_pageData fetch w urlString filename k s s1 pd pd1 st st1 hc)
    doc pd pd2 st st2 out h

theorem rewriteAssets_rel (R : State → State → Prop) (hrefl : ∀ x, R x x)
    (htrans : ∀ x y z, R x y → R y z → R x z)
    (fetch : State → String → String → Result) (w : World) (urlString filename : String)
    (hstep : ∀ st : State, R st st.step)
    (hfetch : ∀ (st : State) (src uri : String) pdn e st1,
      fetch st.step uri (localName filename (w.uuid st.tick) src) = Result.ret pdn e st1 →
        R st st1)
    (doc out : Doc) (pd pd3 : PageData) (st st3 : State)
    (h : rewriteAssets fetch w urlString filename doc pd st = Visit.next out pd3 st3) :
    R st st3 := by
  obtain ⟨d1, pd1, st1, d2, pd2, st2, h1, h2, h3⟩ := rewriteAssets_inv _ _ _ _ _ _ _ _ _ _ h
  have r1 := loop_rel R hrefl htrans fetch w urlString filename hstep hfetch _ _ _ _ _ _ _ _ h1
  have r2 := loop_rel R hrefl htrans fetch w urlString filename hstep hfetch _ _ _ _ _ _ _ _ h2
  have r3 := loop_rel R hrefl htrans fetch w urlString filename hstep hfetch _ _ _ _ _ _ _ _ h3
  exact htrans _ _ _ r1 (htrans _ _ _ r2 r3)

/-- What a run that gets a response, creates the file, passes the status check and parses
the body has done when it returns. -/
theorem retrieveBody_html_inv (fetch : State → String → String → Result) (w : World)
    (st st1 : State) (urlString filename : String) (response : Response) (doc : Doc)
    (pd : PageData) (err : Option FetchError)
    (hty : getExtension filename = ("html", true))
    (hget : w.httpGet st.tick urlString = Except.ok response)
    (hcreate : w.createErr (st.tick + 1) filename = none)
    (hstatus : response.StatusCode = 200)
    (hparse : w.parse response.Body = Except.ok doc)
    (h : retrieveBody fetch w st urlString filename = Result.ret pd err st1) :
    ∃ out st3,
      rewriteAssets fetch w urlString filename doc (startPageData doc)
        (assetsStart w st filename) = Visit.next out pd st3 ∧
      ((∃ msg, w.render out = Except.error msg ∧ err = some (FetchError.rebuild msg) ∧
          st1 = st3) ∨
       (∃ html, w.render out = Except.ok html ∧ st1 = (ioCopy w st3 filename html none).1 ∧
          ((err = none ∧ (ioCopy w st3 filename html none).2 = none) ∨
            ∃ msg, err = some (FetchError.saveURL urlString filename msg)))) := by
  have hty2 : (getExtension filename).2 = true ∧ (getExtension filename).1 = "html" := by
    rw [hty]; exact ⟨rfl, rfl⟩
  have hstart : assetsStart w st filename
      = osMkdir w { fs := st.step.fs.set filename (Node.file ""), tick := st.step.tick + 1 }
          (filename ++ "-res") := by
    simp only [assetsStart, osCreate_ok w st.step filename hcreate]
  simp only [retrieveBody, hget] at h
  rw [osCreate_ok w st.step filename hcreate] at h
  simp only [hty2, and_self, if_true, hstatus, ne_eq, not_true_eq_false, if_false, hparse] at h
  rw [← hstart] at h
  change (match rewriteAssets fetch w urlString filename doc (startPageData doc)
      (assetsStart w st filename) with
    | Visit.exit st => Result.exit st
    | Visit.noFuel => Result.noFuel
    | Visit.next doc pageData st =>
      match w.render doc with
      | Except.error msg => Result.ret pageData (some (FetchError.rebuild msg)) st
      | Except.ok html =>
        match ioCopy w st filename html none with
        | (st, some msg) =>
          Result.ret pageData (some (FetchError.saveURL urlString filename msg)) st
        | (st, none) => Result.ret pageData none st) = Result.ret pd err st1 at h
  cases hrw : rewriteAssets fetch w urlString filename doc (startPageData doc)
      (assetsStart w st filename) with
  | exit s => rw [hrw] at h; simp at h
  | noFuel => rw [hrw] at h; simp at h
  | next out pd3 st3 =>
    rw [hrw] at h
    simp only at h
    cases hr : w.render out with
    | error msg =>
      rw [hr] at h
      simp only [Result.ret.injEq] at h
      obtain ⟨h1, h2, h3⟩ := h
      subst h1
      exact ⟨out, st3, rfl, Or.inl ⟨msg, hr, h2.symm, h3.symm⟩⟩
    | ok html =>
      rw [hr] at h
      simp only at h
      cases hc : ioCopy w st3 filename html none with
      | mk s2 e2 =>
        rw [hc] at h
        cases e2 with
        | none =>
          simp only [Result.ret.injEq] at h
          obtain ⟨h1, h2, h3⟩ := h
          subst h1
          exact ⟨out, st3, rfl, Or.inr ⟨html, hr, by rw [hc, h3], Or.inl ⟨h2.symm, by rw [hc]⟩⟩⟩
        | some msg =>
          simp only [Result.ret.injEq] at h
          obtain ⟨h1, h2, h3⟩ := h
          subst h1
          exact ⟨out, st3, rfl, Or.inr ⟨html, hr, by rw [hc, h3], Or.inr ⟨msg, h2.symm⟩⟩⟩

/-- A relation on states that holds across the library calls of a run and across its loops
holds across the run. -/
theorem retrieveBody_rel (R : State → State → Prop)
    (htrans : ∀ x y z, R x y → R y z → R x z)
    (fetch : State → String → String → Result) (w : World) (urlString filename : String)
    (hstep : ∀ s : State, R s s.step)
    (hcreate : ∀ s : State, R s (osCreate w s filename).1)
    (hmkdir : ∀ s : State, R s (osMkdir w s (filename ++ "-res")))
    (hcopy : ∀ (s : State) d e, R s (ioCopy w s filename d e).1)
    (hassets : ∀ doc pd s out pd2 s2,
      rewriteAssets fetch w urlString filename doc pd s = Visit.next out pd2 s2 → R s s2)
    (st st1 : State) (pd : PageData) (err : Option FetchError)
    (h : retrieveBody fetch w st urlString filename = Result.ret pd err st1) : R st st1 := by
  simp only [retrieveBody] at h
  split at h
  · simp only [Result.ret.injEq] at h
    rw [← h.2.2]
    exact hstep _
  · have hc := hcreate st.step
    split at h
    · rename_i s2 msg heq
      rw [heq] at hc
      simp only [Result.ret.injEq] at h
      rw [← h.2.2]
      exact htrans _ _ _ (hstep _) hc
    · rename_i s2 heq
      rw [heq] at hc
      have h02 : R st s2 := htrans _ _ _ (hstep _) hc
      split at h
      · split at h
        · simp only [Result.ret.injEq] at h
          rw [← h.2.2]
          exact h02
        · have hm := hmkdir s2
          split at h
          · simp at h
          · split at h
            · simp at h
            · simp at h
            · rename_i out pd3 s3 hrw
              have ha := hassets _ _ _ _ _ _ hrw
              have h03 : R st s3 := htrans _ _ _ h02 (htrans _ _ _ hm ha)
              split at h
              · simp only [Result.ret.injEq] at h
                rw [← h.2.2]
                exact h03
              · rename_i html hr
                have hcp := hcopy s3 html none
                split at h
                · rename_i s4 msg hio
                  rw [hio] at hcp
                  simp only [Result.ret.injEq] at h
                  rw [← h.2.2]
                  exact htrans _ _ _ h03 hcp
                · rename_i s4 hio
                  rw [hio] at hcp
                  simp only [Result.ret.injEq] at h
                  rw [← h.2.2]
                  exact htrans _ _ _ h03 hcp
      · split at h
        · rename_i s4 msg hio
          have hcp : R s2 s4 := by
            have e := congrArg Prod.fst hio
            simp only at e
            rw [← e]
            exact hcopy _ _ _
          simp only [Result.ret.injEq] at h
          rw [← h.2.2]
          exact htrans _ _ _ h02 hcp
        · rename_i s4 hio
          have hcp : R s2 s4 := by
            have e := congrArg Prod.fst hio
            simp only at e
            rw [← e]
            exact hcopy _ _ _
          simp only [Result.ret.injEq] at h
          rw [← h.2.2]
          exact htrans _ _ _ h02 hcp

/-! ### Files are kept, and new files lie below the target path -/

theorem FS.isFile_set_file (fs : FS) (p q c : String) :
    (fs.set p (Node.file c)).isFile q = if p = q then true else fs.isFile q := by
  by_cases h : p = q <;> simp [FS.isFile, FS.set, FS.get, h]

theorem FS.isFile_set_dir (fs : FS) (p q : String) :
    (fs.set p Node.dir).isFile q = if p = q then false else fs.isFile q := by
  by_cases h : p = q <;> simp [FS.isFile, FS.set, FS.get, h]

theorem FS.isFile_of_get_none (fs : FS) (p : String) (h : fs.get p = none) :
    fs.isFile p = false := by
  simp [FS.isFile, h]

theorem osCreate_cases (w : World) (s : State) (path : String) :
    ((osCreate w s path).1.fs = s.fs ∨
      (osCreate w s path).1.fs = s.fs.set path (Node.file "")) ∧
    (osCreate w s path).1.tick = s.tick + 1 := by
  unfold osCreate
  cases w.createErr s.tick path <;> simp [State.step]

theorem osMkdir_cases (w : World) (s : State) (path : String) :
    ((osMkdir w s path).fs = s.fs ∨
      (s.fs.get path = none ∧ (osMkdir w s path).fs = s.fs.set path Node.dir)) ∧
    (osMkdir w s path).tick = s.tick + 1 := by
  unfold osMkdir
  cases hg : s.fs.get path with
  | some n => simp [State.step]
  | none =>
    cases w.mkdirErr s.tick path <;> simp [State.step]

theorem ioCopy_cases (w : World) (s : State) (path data : String) (e : Option String) :
    (∃ c, (ioCopy w s path data e).1.fs = s.fs.set path (Node.file c)) ∧
    (ioCopy w s path data e).1.tick = s.tick + 1 := by
  unfold ioCopy
  cases w.copyFault s.tick path data with
  | none => exact ⟨⟨data, rfl⟩, rfl⟩
  | some km => exact ⟨⟨_, rfl⟩, rfl⟩

theorem ioCopy_isFile (w : World) (s : State) (path data : String) (e : Option String) :
    (ioCopy w s path data e).1.fs.isFile path = true := by
  obtain ⟨⟨c, hc⟩, _⟩ := ioCopy_cases w s path data e
  rw [hc, FS.isFile_set_file]; simp

theorem FilesKept_refl (a : State) : FilesKept a a := fun _ h => h

theorem FilesKept_trans (a b c : State) (h1 : FilesKept a b) (h2 : FilesKept b c) :
    FilesKept a c := fun p h => h2 p (h1 p h)

theorem FilesKept_step (a : State) : FilesKept a a.step := fun _ h => h

theorem FilesKept_of_set_file (a b : State) (path c : String)
    (h : b.fs = a.fs.set path (Node.file c)) : FilesKept a b := by
  intro p hp
  rw [h, FS.isFile_set_file]
  by_cases e : path = p <;> simp [e, hp]

theorem FilesKept_osCreate (w : World) (path : String) (a : State) :
    FilesKept a (osCreate w a path).1 := by
  rcases (osCreate_cases w a path).1 with h | h
  · intro p hp; rw [h]; exact hp
  · exact FilesKept_of_set_file _ _ _ _ h

theorem FilesKept_osMkdir (w : World) (path : String) (a : State) :
    FilesKept a (osMkdir w a path) := by
  rcases (osMkdir_cases w a path).1 with h | ⟨hn, h⟩
  · intro p hp; rw [h]; exact hp
  · intro p hp
    rw [h, FS.isFile_set_dir]
    by_cases e : path = p
    · subst e
      rw [FS.isFile_of_get_none _ _ hn] at hp
      exact absurd hp (by simp)
    · simp [e, hp]

theorem FilesKept_ioCopy (w : World) (path : String) (a : State) (d : String)
    (e : Option String) : FilesKept a (ioCopy w a path d e).1 := by
  obtain ⟨⟨c, hc⟩, _⟩ := ioCopy_cases w a path d e
  exact FilesKept_of_set_file _ _ _ _ hc

/-- Files are never removed: a regular file that exists when a call starts exists when the
call returns. -/
theorem RetrieveResource_filesKept (w : World) (fuel : Nat) :
    ∀ (st : State) (urlString filename : String) (pd : PageData) (err : Option FetchError)
      (st1 : State),
      RetrieveResource w fuel st urlString filename = Result.ret pd err st1 →
        FilesKept st st1 := by
  induction fuel with
  | zero => intro st u f pd err st1 h; simp [RetrieveResource] at h
  | succ n ih =>
    intro st u f pd err st1 h
    refine retrieveBody_rel FilesKept FilesKept_trans (RetrieveResource w n) w
      u f FilesKept_step (FilesKept_osCreate w f) (FilesKept_osMkdir w _)
      (fun s d e => FilesKept_ioCopy w f s d e) ?_ st st1 pd err h
    intro doc pd0 s out pd2 s2 hrw
    exact rewriteAssets_rel FilesKept FilesKept_refl FilesKept_trans (RetrieveResource w n) w
      u f FilesKept_step
      (fun st src uri pdn e st1 hf =>
        FilesKept_trans _ _ _ (FilesKept_step st) (ih _ _ _ _ _ _ hf))
      doc out pd0 pd2 s s2 hrw

theorem Frame_refl (w : World) (filename : String) (a : State) : Frame w filename a a :=
  ⟨Nat.le_refl _, fun _ h => Or.inl h⟩

theorem Frame_trans (w : World) (filename : String) (a b c : State)
    (h1 : Frame w filename a b) (h2 : Frame w filename b c) : Frame w filename a c := by
  refine ⟨Nat.le_trans h1.1 h2.1, fun p hp => ?_⟩
  rcases h2.2 p hp with h | h | ⟨t, src, rest, ht1, ht2, hpe⟩
  · rcases h1.2 p h with h | h | ⟨t, src, rest, ht1, ht2, hpe⟩
    · exact Or.inl h
    · exact Or.inr (Or.inl h)
    · exact Or.inr (Or.inr ⟨t, src, rest, ht1, Nat.lt_of_lt_of_le ht2 h2.1, hpe⟩)
  · exact Or.inr (Or.inl h)
  · exact Or.inr (Or.inr ⟨t, src, rest, Nat.le_trans h1.1 ht1, ht2, hpe⟩)

theorem Frame_of_same_files (w : World) (filename : String) (a b : State)
    (ht : a.tick ≤ b.tick) (h : ∀ p, b.fs.isFile p = true → a.fs.isFile p = true) :
    Frame w filename a b :=
  ⟨ht, fun p hp => Or.inl (h p hp)⟩

theorem Frame_step (w : World) (filename : String) (a : State) : Frame w filename a a.step :=
  Frame_of_same_files w filename a a.step (Nat.le_succ _) (fun _ h => h)

theorem Frame_of_set_file (w : World) (filename : String) (a b : State) (c : String)
    (ht : a.tick ≤ b.tick) (h : b.fs = a.fs.set filename (Node.file c)) :
    Frame w filename a b := by
  refine ⟨ht, fun p hp => ?_⟩
  rw [h, FS.isFile_set_file] at hp
  by_cases e : filename = p
  · exact Or.inr (Or.inl e.symm)
  · simp only [e, if_false] at hp
    exact Or.inl hp

theorem Frame_osCreate (w : World) (filename : String) (a : State) :
    Frame w filename a (osCreate w a filename).1 := by
  obtain ⟨hfs, ht⟩ := osCreate_cases w a filename
  rcases hfs with h | h
  · exact Frame_of_same_files _ _ _ _ (by omega) (fun p hp => by rw [h] at hp; exact hp)
  · exact Frame_of_set_file _ _ _ _ _ (by omega) h

theorem Frame_osMkdir (w : World) (filename path : String) (a : State) :
    Frame w filename a (osMkdir w a path) := by
  obtain ⟨hfs, ht⟩ := osMkdir_cases w a path
  refine Frame_of_same_files _ _ _ _ (by omega) (fun p hp => ?_)
  rcases hfs with h | ⟨_, h⟩
  · rw [h] at hp; exact hp
  · rw [h, FS.isFile_set_dir] at hp
    by_cases e : path = p
    · simp [e] at hp
    · simpa [e] using hp

theorem Frame_ioCopy (w : World) (filename : String) (a : State) (d : String)
    (e : Option String) : Frame w filename a (ioCopy w a filename d e).1 := by
  obtain ⟨⟨c, hc⟩, ht⟩ := ioCopy_cases w a filename d e
  exact Frame_of_set_file _ _ _ _ _ (by omega) hc

/-- The new files of a nested fetch lie at or below its local name. -/
theorem Frame_of_nested (w : World) (filename src : String) (a b : State)
    (h : Frame w (localName filename (w.uuid a.tick) src) a.step b) :
    Frame w filename a b := by
  have ht : a.tick + 1 ≤ b.tick := h.1
  refine ⟨by omega, fun p hp => ?_⟩
  rcases h.2 p hp with h1 | h1 | ⟨t, src2, rest, _, _, hpe⟩
  · exact Or.inl h1
  · exact Or.inr (Or.inr ⟨a.tick, src, "", Nat.le_refl _, by omega, by simp [h1]⟩)
  · obtain ⟨sfx, hs⟩ := localName_shape (localName filename (w.uuid a.tick) src) (w.uuid t) src2
    refine Or.inr (Or.inr ⟨a.tick, src, "-res/" ++ w.uuid t ++ sfx ++ rest, Nat.le_refl _,
      by omega, ?_⟩)
    rw [hpe, hs]
    simp only [String.append_assoc]

/-- A call creates files only at its target path and at or below the local names it draws. -/
theorem RetrieveResource_frame (w : World) (fuel : Nat) :
    ∀ (st : State) (urlString filename : String) (pd : PageData) (err : Option FetchError)
      (st1 : State),
      RetrieveResource w fuel st urlString filename = Result.ret pd err st1 →
        Frame w filename st st1 := by
  induction fuel with
  | zero => intro st u f pd err st1 h; simp [RetrieveResource] at h
  | succ n ih =>
    intro st u f pd err st1 h
    refine retrieveBody_rel (Frame w f) (Frame_trans w f)
      (RetrieveResource w n) w u f (Frame_step w f) (Frame_osCreate w f)
      (Frame_osMkdir w f _) (fun s d e => Frame_ioCopy w f s d e) ?_ st st1 pd err h
    intro doc pd0 s out pd2 s2 hrw
    exact rewriteAssets_rel (Frame w f) (Frame_refl w f) (Frame_trans w f)
      (RetrieveResource w n) w u f (Frame_step w f)
      (fun st src uri pdn e st1 hf => Frame_of_nested w f src st st1 (ih _ _ _ _ _ _ hf))
      doc out pd0 pd2 s s2 hrw

/-! ### The visit of one element within a run -/

theorem eq_take_cons_drop {α : Type} (l : List α) (i : Nat) (s : α) (h : l.get? i = some s) :
    l = l.take i ++ s :: l.drop (i + 1) ∧ (l.take i).length = i := by
  induction l generalizing i with
  | nil => simp at h
  | cons x rest ih =>
    cases i with
    | zero =>
      simp only [List.get?_cons_zero, Option.some.injEq] at h
      subst h
      simp
    | succ j =>
      simp only [List.get?_cons_succ] at h
      obtain ⟨h1, h2⟩ := ih j h
      constructor
      · simp only [List.take_succ_cons, List.drop_succ_cons, List.cons_append]
        rw [← h1]
      · simp only [List.take_succ_cons, List.length_cons, h2]

theorem get?_append_cons_length {α : Type} (a b : List α) (x : α) :
    (a ++ x :: b).get? a.length = some x := by
  induction a with
  | nil => simp
  | cons y rest ih => simpa using ih

theorem setAttrValue_attrValue (name val : String) (attrs : List (String × String)) :
    attrValue name (setAttrValue name val attrs) = some val := by
  induction attrs with
  | nil => simp [setAttrValue, attrValue]
  | cons a rest ih =>
    by_cases h : a.1 = name
    · simp [setAttrValue, attrValue, h]
    · simp [setAttrValue, attrValue, h, ih]

theorem Element.Attr_SetAttr (s : Element) (name val : String) :
    (s.SetAttr name val).Attr name = some val :=
  setAttrValue_attrValue name val s.attrs

theorem assetClosure_tag (fetch : State → String → String → Result) (w : World)
    (urlString filename : String) (k : AssetKind) (s s1 : Element) (pd pd1 : PageData)
    (st st1 : State)
    (h : assetClosure fetch w urlString filename k s pd st = Visit.next s1 pd1 st1) :
    s1.tag = s.tag := by
  rcases assetClosure_next_inv _ _ _ _ _ _ _ _ _ _ _ h with
    ⟨_, h2, _, _⟩ | ⟨src, _, _, ⟨m, _, h2, _⟩ | ⟨uri, pdn, e, _, _, h2⟩ | ⟨uri, pdn, _, _, h2⟩⟩
  all_goals rw [h2]
  rfl

/-- Within one loop: the visit of the element at position `i` starts from the result of the
loop over the elements before it, and the element it leaves is the element at position `i`
of the result of the loop. -/
theorem pass_position (R : State → State → Prop) (hrefl : ∀ x, R x x)
    (htrans : ∀ x y z, R x y → R y z → R x z)
    (fetch : State → String → String → Result) (w : World) (urlString filename : String)
    (hstep : ∀ st : State, R st st.step)
    (hfetch : ∀ (st : State) (src uri : String) pdn e st1,
      fetch st.step uri (localName filename (w.uuid st.tick) src) = Result.ret pdn e st1 →
        R st st1)
    (sel : String) (k : AssetKind) (docK outK : Doc) (pdK pdK1 : PageData) (stK stK1 : State)
    (hfull : findEach sel (assetClosure fetch w urlString filename k) docK pdK stK
      = Visit.next outK pdK1 stK1)
    (i : Nat) (s : Element) (hs : docK.get? i = some s) (htag : s.tag = sel)
    (pre : Doc) (pdi : PageData) (sti : State)
    (hpre : findEach sel (assetClosure fetch w urlString filename k) (docK.take i) pdK stK
      = Visit.next pre pdi sti) :
    ∃ s1 pd1 st1,
      assetClosure fetch w urlString filename k s pdi sti = Visit.next s1 pd1 st1 ∧
      outK.get? i = some s1 ∧ PageDataLe pd1 pdK1 ∧ R stK sti ∧ R st1 stK1 := by
  obtain ⟨hsplit, hlen⟩ := eq_take_cons_drop docK i s hs
  rw [hsplit] at hfull
  obtain ⟨a1, pda, sta, b1, ha, hb, hout⟩ := findEach_append_inv _ _ _ _ _ _ _ _ _ hfull
  rw [hpre] at ha
  simp only [Visit.next.injEq] at ha
  obtain ⟨e1, e2, e3⟩ := ha
  subst e1 e2 e3
  obtain ⟨s1, pd1, st1, rest1, hcl, hrest, hb1⟩ := findEach_cons_inv _ _ _ _ _ _ _ _ _ hb
  simp only [htag, if_true] at hcl
  refine ⟨s1, pd1, st1, hcl, ?_, ?_, ?_, ?_⟩
  · have hl : pre.length = i := by
      rw [findEach_length _ _ _ _ _ _ _ _ hpre, hlen]
    rw [hout, hb1, ← hl]
    exact get?_append_cons_length _ _ _
  · exact loop_pageData _ _ _ _ _ _ _ _ _ _ _ _ hrest
  · exact loop_rel R hrefl htrans fetch w urlString filename hstep hfetch _ _ _ _ _ _ _ _ hpre
  · exact loop_rel R hrefl htrans fetch w urlString filename hstep hfetch _ _ _ _ _ _ _ _ hrest

theorem PageDataLe_trans (a b c : PageData) (h1 : PageDataLe a b) (h2 : PageDataLe b c) :
    PageDataLe a c := fun k x hx => h2 k x (h1 k x hx)

/-- Within the three loops: the visit of the element at position `i` by the loop of its kind
starts from the result of that loop over the elements before it, and the element it leaves is
the element at position `i` of the final document. -/
theorem asset_position (R : State → State → Prop) (hrefl : ∀ x, R x x)
    (htrans : ∀ x y z, R x y → R y z → R x z)
    (fetch : State → String → String → Result) (w : World) (urlString filename : String)
    (hstep : ∀ st : State, R st st.step)
    (hfetch : ∀ (st : State) (src uri : String) pdn e st1,
      fetch st.step uri (localName filename (w.uuid st.tick) src) = Result.ret pdn e st1 →
        R st st1)
    (doc out : Doc) (pd pd3 : PageData) (st st3 : State)
    (hrw : rewriteAssets fetch w urlString filename doc pd st = Visit.next out pd3 st3)
    (k : AssetKind) (i : Nat) (s : Element) (hs : doc.get? i = some s)
    (htag : s.tag = k.selector)
    (docK : Doc) (pdK : PageData) (stK : State)
    (hstart : passStart fetch w urlString filename k doc pd st = Visit.next docK pdK stK)
    (pre : Doc) (pdi : PageData) (sti : State)
    (hpre : findEach k.selector (assetClosure fetch w urlString filename k) (docK.take i)
      pdK stK = Visit.next pre pdi sti) :
    ∃ s1 pd1 st1,
      assetClosure fetch w urlString filename k s pdi sti = Visit.next s1 pd1 st1 ∧
      out.get? i = some s1 ∧ PageDataLe pd1 pd3 ∧ R st sti ∧ R st1 st3 := by
  obtain ⟨d1, pdA, stA, d2, pdB, stB, h1, h2, h3⟩ := rewriteAssets_inv _ _ _ _ _ _ _ _ _ _ hrw
  have r1 := loop_rel R hrefl htrans fetch w urlString filename hstep hfetch _ _ _ _ _ _ _ _ h1
  have r2 := loop_rel R hrefl htrans fetch w urlString filename hstep hfetch _ _ _ _ _ _ _ _ h2
  have r3 := loop_rel R hrefl htrans fetch w urlString filename hstep hfetch _ _ _ _ _ _ _ _ h3
  have p2 := loop_pageData _ _ _ _ _ _ _ _ _ _ _ _ h2
  have p3 := loop_pageData _ _ _ _ _ _ _ _ _ _ _ _ h3
  cases k with
  | img =>
    simp only [passStart, Visit.next.injEq] at hstart
    obtain ⟨e1, e2, e3⟩ := hstart
    subst e1 e2 e3
    obtain ⟨s1, pd1, st1, hcl, hget, hpd, ra, rb⟩ :=
      pass_position R hrefl htrans fetch w urlString filename hstep hfetch _ _ _ _ _ _ _ _
        h1 i s hs htag pre pdi sti hpre
    have ht1 : s1.tag = "img" := by
      rw [assetClosure_tag _ _ _ _ _ _ _ _ _ _ _ hcl, htag]; rfl
    have g2 := findEach_get_of_ne _ _ _ _ _ _ _ _ h2 i s1 hget (by rw [ht1]; decide)
    have g3 := findEach_get_of_ne _ _ _ _ _ _ _ _ h3 i s1 g2 (by rw [ht1]; decide)
    exact ⟨s1, pd1, st1, hcl, g3, PageDataLe_trans _ _ _ hpd (PageDataLe_trans _ _ _ p2 p3),
      ra, htrans _ _ _ rb (htrans _ _ _ r2 r3)⟩
  | link =>
    simp only [passStart] at hstart
    rw [h1] at hstart
    simp only [Visit.next.injEq] at hstart
    obtain ⟨e1, e2, e3⟩ := hstart
    subst e1 e2 e3
    have hs1 : d1.get? i = some s :=
      findEach_get_of_ne _ _ _ _ _ _ _ _ h1 i s hs (by rw [htag]; decide)
    obtain ⟨s1, pd1, st1, hcl, hget, hpd, ra, rb⟩ :=
      pass_position R hrefl htrans fetch w urlString filename hstep hfetch _ _ _ _ _ _ _ _
        h2 i s hs1 htag pre pdi sti hpre
    have ht1 : s1.tag = "link" := by
      rw [assetClosure_tag _ _ _ _ _ _ _ _ _ _ _ hcl, htag]; rfl
    have g3 := findEach_get_of_ne _ _ _ _ _ _ _ _ h3 i s1 hget (by rw [ht1]; decide)
    exact ⟨s1, pd1, st1, hcl, g3, PageDataLe_trans _ _ _ hpd p3,
      htrans _ _ _ r1 ra, htrans _ _ _ rb r3⟩
  | script =>
    simp only [passStart] at hstart
    rw [h1] at hstart
    simp only at hstart
    rw [h2] at hstart
    simp only [Visit.next.injEq] at hstart
    obtain ⟨e1, e2, e3⟩ := hstart
    subst e1 e2 e3
    have hs1 : d1.get? i = some s :=
      findEach_get_of_ne _ _ _ _ _ _ _ _ h1 i s hs (by rw [htag]; decide)
    have hs2 : d2.get? i = some s :=
      findEach_get_of_ne _ _ _ _ _ _ _ _ h2 i s hs1 (by rw [htag]; decide)
    obtain ⟨s1, pd1, st1, hcl, hget, hpd, ra, rb⟩ :=
      pass_position R hrefl htrans fetch w urlString filename hstep hfetch _ _ _ _ _ _ _ _
        h3 i s hs2 htag pre pdi sti hpre
    exact ⟨s1, pd1, st1, hcl, hget, hpd, htrans _ _ _ r1 (htrans _ _ _ r2 ra), rb⟩

theorem findEach_take (sel : String) (f : Element → PageData → State → Visit Element)
    (doc out : Doc) (pd pd2 : PageData) (st st2 : State)
    (h : findEach sel f doc pd st = Visit.next out pd2 st2) (i : Nat) :
    ∃ pre pdi sti, findEach sel f (doc.take i) pd st = Visit.next pre pdi sti := by
  rw [← List.take_append_drop i doc] at h
  obtain ⟨a1, pd1, st1, _, ha, _, _⟩ := findEach_append_inv _ _ _ _ _ _ _ _ _ h
  exact ⟨a1, pd1, st1, ha⟩

/-- When the three loops complete, the loop of every kind started, and it completed over the
elements before every position: the states in which the elements are visited exist. -/
theorem visit_exists (fetch : State → String → String → Result) (w : World)
    (urlString filename : String) (doc out : Doc) (pd pd3 : PageData) (st st3 : State)
    (hrw : rewriteAssets fetch w urlString filename doc pd st = Visit.next out pd3 st3)
    (k : AssetKind) (i : Nat) :
    ∃ docK pdK stK pre pdi sti,
      passStart fetch w urlString filename k doc pd st = Visit.next docK pdK stK ∧
      findEach k.selector (assetClosure fetch w urlString filename k) (docK.take i) pdK stK
        = Visit.next pre pdi sti := by
  obtain ⟨d1, pdA, stA, d2, pdB, stB, h1, h2, h3⟩ := rewriteAssets_inv _ _ _ _ _ _ _ _ _ _ hrw
  cases k with
  | img =>
    obtain ⟨pre, pdi, sti, hp⟩ := findEach_take _ _ _ _ _ _ _ _ h1 i
    exact ⟨doc, pd, st, pre, pdi, sti, rfl, hp⟩
  | link =>
    obtain ⟨pre, pdi, sti, hp⟩ := findEach_take _ _ _ _ _ _ _ _ h2 i
    exact ⟨d1, pdA, stA, pre, pdi, sti, h1, hp⟩
  | script =>
    obtain ⟨pre, pdi, sti, hp⟩ := findEach_take _ _ _ _ _ _ _ _ h3 i
    refine ⟨d2, pdB, stB, pre, pdi, sti, ?_, hp⟩
    simp only [passStart, h1, h2]

theorem ioCopy_ok_get (w : World) (s : State) (path data : String) (e : Option String)
    (h : (ioCopy w s path data e).2 = none) :
    (ioCopy w s path data e).1.fs.get path = some (Node.file data) := by
  unfold ioCopy at h ⊢
  cases hf : w.copyFault s.tick path data with
  | none => simp [FS.get_set_self]
  | some km => rw [hf] at h; simp at h

/-- The errors a call returns and what they say about the file at the target path. -/
theorem retrieveBody_ret_cases (fetch : State → String → String → Result) (w : World)
    (st st1 : State) (urlString filename : String) (pd : PageData) (err : Option FetchError)
    (h : retrieveBody fetch w st urlString filename = Result.ret pd err st1) :
    (∃ m, err = some (FetchError.getURL urlString m) ∧ st1.fs = st.fs) ∨
    (∃ m, err = some (FetchError.createFile filename m) ∧ st1.fs = st.fs) ∨
    (∃ c s, err = some (FetchError.statusCode c s)) ∨
    (∃ m, err = some (FetchError.rebuild m)) ∨
    ((err = none ∨ ∃ m, err = some (FetchError.saveURL urlString filename m)) ∧
      st1.fs.isFile filename = true) := by
  simp only [retrieveBody] at h
  split at h
  · rename_i msg _
    simp only [Result.ret.injEq] at h
    exact Or.inl ⟨msg, h.2.1.symm, by rw [← h.2.2]; rfl⟩
  · split at h
    · rename_i s2 msg heq
      simp only [Result.ret.injEq] at h
      refine Or.inr (Or.inl ⟨msg, h.2.1.symm, ?_⟩)
      rw [← h.2.2]
      unfold osCreate at heq
      cases hc : w.createErr st.step.tick filename with
      | none => rw [hc] at heq; simp at heq
      | some m2 =>
        rw [hc] at heq
        simp only [Prod.mk.injEq] at heq
        rw [← heq.1]
        rfl
    · rename_i s2 heq
      split at h
      · split at h
        · simp only [Result.ret.injEq] at h
          exact Or.inr (Or.inr (Or.inl ⟨_, _, h.2.1.symm⟩))
        · split at h
          · simp at h
          · split at h
            · simp at h
            · simp at h
            · split at h
              · simp only [Result.ret.injEq] at h
                exact Or.inr (Or.inr (Or.inr (Or.inl ⟨_, h.2.1.symm⟩)))
              · rename_i s3 _ html _
                refine Or.inr (Or.inr (Or.inr (Or.inr ?_)))
                split at h
                · rename_i s4 msg hio
                  simp only [Result.ret.injEq] at h
                  refine ⟨Or.inr ⟨msg, h.2.1.symm⟩, ?_⟩
                  rw [← h.2.2]
                  have e := congrArg Prod.fst hio
                  simp only at e
                  rw [← e]
                  exact ioCopy_isFile _ _ _ _ _
                · rename_i s4 hio
                  simp only [Result.ret.injEq] at h
                  refine ⟨Or.inl h.2.1.symm, ?_⟩
                  rw [← h.2.2]
                  have e := congrArg Prod.fst hio
                  simp only at e
                  rw [← e]
                  exact ioCopy_isFile _ _ _ _ _
      · refine Or.inr (Or.inr (Or.inr (Or.inr ?_)))
        split at h
        · rename_i s4 msg hio
          simp only [Result.ret.injEq] at h
          refine ⟨Or.inr ⟨msg, h.2.1.symm⟩, ?_⟩
          rw [← h.2.2]
          have e := congrArg Prod.fst hio
          simp only at e
          rw [← e]
          exact ioCopy_isFile _ _ _ _ _
        · rename_i s4 hio
          simp only [Result.ret.injEq] at h
          refine ⟨Or.inl h.2.1.symm, ?_⟩
          rw [← h.2.2]
          have e := congrArg Prod.fst hio
          simp only at e
          rw [← e]
          exact ioCopy_isFile _ _ _ _ _

theorem RetrieveResource_ret_cases (w : World) (fuel : Nat) (st st1 : State)
    (urlString filename : String) (pd : PageData) (err : Option FetchError)
    (h : RetrieveResource w fuel st urlString filename = Result.ret pd err st1) :
    (∃ m, err = some (FetchError.getURL urlString m) ∧ st1.fs = st.fs) ∨
    (∃ m, err = some (FetchError.createFile filename m) ∧ st1.fs = st.fs) ∨
    (∃ c s, err = some (FetchError.statusCode c s)) ∨
    (∃ m, err = some (FetchError.rebuild m)) ∨
    ((err = none ∨ ∃ m, err = some (FetchError.saveURL urlString filename m)) ∧
      st1.fs.isFile filename = true) := by
  cases fuel with
  | zero => simp [RetrieveResource] at h
  | succ n => exact retrieveBody_ret_cases _ w st st1 urlString filename pd err h

/-- A run on an HTML target that returns no error created the file and saw status 200. -/
theorem retrieveBody_html_ok (fetch : State → String → String → Result) (w : World)
    (st st1 : State) (urlString filename : String) (response : Response) (pd : PageData)
    (hty : getExtension filename = ("html", true))
    (hget : w.httpGet st.tick urlString = Except.ok response)
    (h : retrieveBody fetch w st urlString filename = Result.ret pd none st1) :
    w.createErr (st.tick + 1) filename = none ∧ response.StatusCode = 200 := by
  have hty2 : (getExtension filename).2 = true ∧ (getExtension filename).1 = "html" := by
    rw [hty]; exact ⟨rfl, rfl⟩
  simp only [retrieveBody, hget] at h
  cases hc : w.createErr (st.tick + 1) filename with
  | some m =>
    have : osCreate w st.step filename = (st.step.step, some m) := by
      simp [osCreate, State.step, hc]
    rw [this] at h
    simp at h
  | none =>
    refine ⟨rfl, ?_⟩
    rw [osCreate_ok w st.step filename hc] at h
    simp only [hty2, and_self, if_true] at h
    by_contra hs
    simp [hs] at h

/-! ### Local names -/

theorem localName_clash (f u u2 src src2 rest : String)
    (h : localName f u src = localName f u2 src2 ++ rest) (hlen : u2.length = u.length) :
    u2 = u := by
  obtain ⟨s1, h1⟩ := localName_shape f u src
  obtain ⟨s2, h2⟩ := localName_shape f u2 src2
  rw [h1, h2] at h
  have hd := congrArg String.data h
  simp only [String.data_append, List.append_assoc, List.append_cancel_left_eq] at hd
  have := (List.append_inj hd.symm (show u2.data.length = u.data.length from hlen)).1
  exact String.ext this

theorem localName_ne_target (f u src : String) : localName f u src ≠ f := by
  obtain ⟨s1, h1⟩ := localName_shape f u src
  intro h
  rw [h1] at h
  have hd := congrArg (fun x => x.data.length) h
  have h5 : "-res/".data.length = 5 := by decide
  simp only [String.data_append, List.length_append, h5] at hd
  omega

/-! ### Files and frame together -/

theorem kept_and_frame_fetch (w : World) (fuel : Nat) (filename : String) (st : State)
    (src uri : String) (pdn : PageData) (e : Option FetchError) (st1 : State)
    (h : RetrieveResource w fuel st.step uri (localName filename (w.uuid st.tick) src)
      = Result.ret pdn e st1) :
    FilesKept st st1 ∧ Frame w filename st st1 :=
  ⟨FilesKept_trans _ _ _ (FilesKept_step st) (RetrieveResource_filesKept w fuel _ _ _ _ _ _ h),
    Frame_of_nested w filename src st st1 (RetrieveResource_frame w fuel _ _ _ _ _ _ h)⟩

theorem assetsStart_rel (w : World) (st : State) (filename : String) :
    FilesKept st (assetsStart w st filename) ∧ Frame w filename st (assetsStart w st filename) :=
  ⟨FilesKept_trans _ _ _ (FilesKept_step st)
      (FilesKept_trans _ _ _ (FilesKept_osCreate w filename _) (FilesKept_osMkdir w _ _)),
    Frame_trans _ _ _ _ _ (Frame_step w filename st)
      (Frame_trans _ _ _ _ _ (Frame_osCreate w filename _) (Frame_osMkdir w filename _ _))⟩

/-- The run of an HTML page around the visit of one of its elements. -/
theorem run_position (w : World) (fuel : Nat) (st st1 : State) (urlString filename : String)
    (response : Response) (doc : Doc) (pd : PageData) (err : Option FetchError)
    (hty : getExtension filename = ("html", true))
    (hget : w.httpGet st.tick urlString = Except.ok response)
    (hcreate : w.createErr (st.tick + 1) filename = none)
    (hstatus : response.StatusCode = 200)
    (hparse : w.parse response.Body = Except.ok doc)
    (hret : RetrieveResource w (fuel + 1) st urlString filename = Result.ret pd err st1)
    (k : AssetKind) (i : Nat) (s : Element) (hs : doc.get? i = some s)
    (htag : s.tag = k.selector)
    (docK : Doc) (pdK : PageData) (stK : State)
    (hstart : passStart (RetrieveResource w fuel) w urlString filename k doc
      (startPageData doc) (assetsStart w st filename) = Visit.next docK pdK stK)
    (pre : Doc) (pdi : PageData) (sti : State)
    (hpre : findEach k.selector (assetClosure (RetrieveResource w fuel) w urlString filename k)
      (docK.take i) pdK stK = Visit.next pre pdi sti) :
    ∃ out st3 s1 pd1 stc,
      rewriteAssets (RetrieveResource w fuel) w urlString filename doc (startPageData doc)
        (assetsStart w st filename) = Visit.next out pd st3 ∧
      (err = none → ∃ html, w.render out = Except.ok html ∧
        st1.fs.get filename = some (Node.file html)) ∧
      assetClosure (RetrieveResource w fuel) w urlString filename k s pdi sti
        = Visit.next s1 pd1 stc ∧
      out.get? i = some s1 ∧ PageDataLe pd1 pd ∧
      (FilesKept st sti ∧ Frame w filename st sti) ∧
      (FilesKept stc st1 ∧ Frame w filename stc st1) := by
  obtain ⟨out, st3, hrw, hend⟩ := retrieveBody_html_inv (RetrieveResource w fuel) w st st1
    urlString filename response doc pd err hty hget hcreate hstatus hparse hret
  obtain ⟨s1, pd1, stc, hcl, hget1, hpd, ra, rb⟩ :=
    asset_position (fun a b => FilesKept a b ∧ Frame w filename a b)
      (fun x => ⟨FilesKept_refl x, Frame_refl w filename x⟩)
      (fun x y z h1 h2 => ⟨FilesKept_trans _ _ _ h1.1 h2.1, Frame_trans _ _ _ _ _ h1.2 h2.2⟩)
      (RetrieveResource w fuel) w urlString filename
      (fun x => ⟨FilesKept_step x, Frame_step w filename x⟩)
      (fun x src uri pdn e x1 hf => kept_and_frame_fetch w fuel filename x src uri pdn e x1 hf)
      doc out (startPageData doc) pd (assetsStart w st filename) st3 hrw k i s hs htag
      docK pdK stK hstart pre pdi sti hpre
  have r0 := assetsStart_rel w st filename
  have rend : FilesKept st3 st1 ∧ Frame w filename st3 st1 := by
    rcases hend with ⟨_, _, _, h3⟩ | ⟨html, _, h3, _⟩
    · rw [h3]; exact ⟨FilesKept_refl _, Frame_refl _ _ _⟩
    · rw [h3]; exact ⟨FilesKept_ioCopy _ _ _ _ _, Frame_ioCopy _ _ _ _ _⟩
  refine ⟨out, st3, s1, pd1, stc, hrw, ?_, hcl, hget1, hpd,
    ⟨FilesKept_trans _ _ _ r0.1 ra.1, Frame_trans _ _ _ _ _ r0.2 ra.2⟩,
    ⟨FilesKept_trans _ _ _ rb.1 rend.1, Frame_trans _ _ _ _ _ rb.2 rend.2⟩⟩
  intro he
  rcases hend with ⟨msg, _, h2, _⟩ | ⟨html, hr, h3, h4⟩
  · rw [he] at h2; simp at h2
  · rcases h4 with ⟨_, hio⟩ | ⟨msg, h5⟩
    · exact ⟨html, hr, by rw [h3]; exact ioCopy_ok_get _ _ _ _ _ hio⟩
    · rw [he] at h5; simp at h5

/-! ### Assets that are fetched, assets that fail -/

theorem assetClosure_fetched (fetch : State → String → String → Result) (w : World)
    (urlString filename : String) (k : AssetKind) (s : Element) (pd : PageData) (st : State)
    (src uri : String) (pdn : PageData) (stn : State)
    (hsrc : k.source s = some src) (hres : w.resolve urlString src = Except.ok uri)
    (hf : fetch st.step uri (localName filename (w.uuid st.tick) src)
      = Result.ret pdn none stn) :
    assetClosure fetch w urlString filename k s pd st
      = Visit.next (s.SetAttr k.attr (localName filename (w.uuid st.tick) src))
          (k.record pd (localName filename (w.uuid st.tick) src)) stn := by
  simp only [assetClosure, hsrc, hres, hf]

theorem assetClosure_unresolved (fetch : State → String → String → Result) (w : World)
    (urlString filename : String) (k : AssetKind) (s : Element) (pd : PageData) (st : State)
    (src m : String)
    (hsrc : k.source s = some src) (hres : w.resolve urlString src = Except.error m) :
    assetClosure fetch w urlString filename k s pd st
      = Visit.next s (k.record pd (localName filename (w.uuid st.tick) src)) st.step := by
  simp only [assetClosure, hsrc, hres]

theorem assetClosure_failed (fetch : State → String → String → Result) (w : World)
    (urlString filename : String) (k : AssetKind) (s : Element) (pd : PageData) (st : State)
    (src uri : String) (pdn : PageData) (e : FetchError) (stn : State)
    (hsrc : k.source s = some src) (hres : w.resolve urlString src = Except.ok uri)
    (hf : fetch st.step uri (localName filename (w.uuid st.tick) src)
      = Result.ret pdn (some e) stn) :
    assetClosure fetch w urlString filename k s pd st
      = Visit.next s (k.record pd (localName filename (w.uuid st.tick) src)) stn := by
  simp only [assetClosure, hsrc, hres, hf]

/-- Claim C1.  For every fetch with an HTML target that returns no error (so that the page was
parsed, rewritten and written), and for every element `s` at position `i` of the parsed
document that the loop of kind `k` (images, stylesheets, scripts) selects and that carries
the reference `src`: if the visit of `s` starts in state `sti` (the state the loop of kind `k`
reaches over the elements before position `i`), the reference resolves to `uri`, and the
nested call of `RetrieveResource` on `uri` and the generated local name returns no error, then
in the document that is serialized into the target file the attribute of the element at
position `i` equals the generated local name, that name is in the list of the returned
`PageData` for the kind, and a regular file exists at that name in the final file system. -/
theorem RetrieveResource_rewrites_fetched_asset (w : World) (fuel : Nat) (st st1 : State)
    (urlString filename : String) (response : Response) (doc : Doc) (pd : PageData)
    (hty : getExtension filename = ("html", true))
    (hget : w.httpGet st.tick urlString = Except.ok response)
    (hparse : w.parse response.Body = Except.ok doc)
    (hret : RetrieveResource w (fuel + 1) st urlString filename = Result.ret pd none st1)
    (k : AssetKind) (i : Nat) (s : Element) (src uri : String)
    (hs : doc.get? i = some s) (htag : s.tag = k.selector) (hsrc : k.source s = some src)
    (docK : Doc) (pdK : PageData) (stK : State)
    (hstart : passStart (RetrieveResource w fuel) w urlString filename k doc
      (startPageData doc) (assetsStart w st filename) = Visit.next docK pdK stK)
    (pre : Doc) (pdi : PageData) (sti : State)
    (hpre : findEach k.selector (assetClosure (RetrieveResource w fuel) w urlString filename k)
      (docK.take i) pdK stK = Visit.next pre pdi sti)
    (hres : w.resolve urlString src = Except.ok uri)
    (pdn : PageData) (stn : State)
    (hnested : RetrieveResource w fuel sti.step uri (localName filename (w.uuid sti.tick) src)
      = Result.ret pdn none stn) :
    ∃ out st3 html,
      rewriteAssets (RetrieveResource w fuel) w urlString filename doc (startPageData doc)
        (assetsStart w st filename) = Visit.next out pd st3 ∧
      w.render out = Except.ok html ∧
      st1.fs.get filename = some (Node.file html) ∧
      (out.get? i).bind (fun e => e.Attr k.attr)
        = some (localName filename (w.uuid sti.tick) src) ∧
      localName filename (w.uuid sti.tick) src ∈ k.recorded pd ∧
      st1.fs.isFile (localName filename (w.uuid sti.tick) src) = true := by
  obtain ⟨hcreate, hstatus⟩ := retrieveBody_html_ok (RetrieveResource w fuel) w st st1
    urlString filename response pd hty hget hret
  obtain ⟨out, st3, s1, pd1, stc, hrw, hfile, hcl, hget1, hpd, _, rb⟩ :=
    run_position w fuel st st1 urlString filename response doc pd none hty hget hcreate
      hstatus hparse hret k i s hs htag docK pdK stK hstart pre pdi sti hpre
  obtain ⟨html, hr, hf⟩ := hfile rfl
  rw [assetClosure_fetched _ w urlString filename k s pdi sti src uri pdn stn hsrc hres
    hnested] at hcl
  simp only [Visit.next.injEq] at hcl
  obtain ⟨e1, e2, e3⟩ := hcl
  subst e1 e2 e3
  refine ⟨out, st3, html, hrw, hr, hf, ?_, ?_, ?_⟩
  · rw [hget1]
    exact Element.Attr_SetAttr _ _ _
  · exact hpd k _ (mem_recorded_record k pdi _)
  · apply rb.1
    rcases RetrieveResource_ret_cases w fuel _ _ _ _ _ _ hnested with
      ⟨m, h, _⟩ | ⟨m, h, _⟩ | ⟨c, m, h⟩ | ⟨m, h⟩ | ⟨_, h⟩
    · simp at h
    · simp at h
    · simp at h
    · simp at h
    · exact h

/-- What the code does for an asset that fails.  For every fetch with an HTML target that gets
a response with status 200, creates its file, parses the body and returns, and for every
element `s` at position `i` that the loop of kind `k` selects, with reference `src`, whose
asset fails (the reference does not resolve, or the nested call returns an error): the
element at position `i` of the document that is serialized is `s`, unchanged.  When the cause
is a reference that does not resolve, a failed request or a failed file creation, no file
existed at the local name when the fetch started, and the identifier of every other tick of
the fetch has the length of, and differs from, the identifier drawn for the element, then no
regular file exists at the local name when the fetch returns.  When the cause is a failed
copy, a regular file exists at the local name when the fetch returns. -/
theorem RetrieveResource_failed_asset (w : World) (fuel : Nat) (st st1 : State)
    (urlString filename : String) (response : Response) (doc : Doc) (pd : PageData)
    (err : Option FetchError)
    (hty : getExtension filename = ("html", true))
    (hget : w.httpGet st.tick urlString = Except.ok response)
    (hcreate : w.createErr (st.tick + 1) filename = none)
    (hstatus : response.StatusCode = 200)
    (hparse : w.parse response.Body = Except.ok doc)
    (hret : RetrieveResource w (fuel + 1) st urlString filename = Result.ret pd err st1)
    (k : AssetKind) (i : Nat) (s : Element) (src : String)
    (hs : doc.get? i = some s) (htag : s.tag = k.selector) (hsrc : k.source s = some src)
    (docK : Doc) (pdK : PageData) (stK : State)
    (hstart : passStart (RetrieveResource w fuel) w urlString filename k doc
      (startPageData doc) (assetsStart w st filename) = Visit.next docK pdK stK)
    (pre : Doc) (pdi : PageData) (sti : State)
    (hpre : findEach k.selector (assetClosure (RetrieveResource w fuel) w urlString filename k)
      (docK.take i) pdK stK = Visit.next pre pdi sti)
    (cause : Option FetchError)
    (hfail : AssetFails (RetrieveResource w fuel) w urlString src
      (localName filename (w.uuid sti.tick) src) sti cause) :
    ∃ out st3,
      rewriteAssets (RetrieveResource w fuel) w urlString filename doc (startPageData doc)
        (assetsStart w st filename) = Visit.next out pd st3 ∧
      (err = none → ∃ html, w.render out = Except.ok html ∧
        st1.fs.get filename = some (Node.file html)) ∧
      out.get? i = some s ∧
      (beforeFile cause = true →
        st.fs.isFile (localName filename (w.uuid sti.tick) src) = false →
        (∀ t, st.tick ≤ t → t < st1.tick → t ≠ sti.tick → w.uuid t ≠ w.uuid sti.tick) →
        (∀ t, st.tick ≤ t → t < st1.tick →
          (w.uuid t).length = (w.uuid sti.tick).length) →
        st1.fs.isFile (localName filename (w.uuid sti.tick) src) = false) ∧
      (duringCopy cause = true →
        st1.fs.isFile (localName filename (w.uuid sti.tick) src) = true) := by
  obtain ⟨out, st3, s1, pd1, stc, hrw, hfile, hcl, hget1, hpd, ra, rb⟩ :=
    run_position w fuel st st1 urlString filename response doc pd err hty hget hcreate
      hstatus hparse hret k i s hs htag docK pdK stK hstart pre pdi sti hpre
  -- what the visit of the element did
  have hvisit : s1 = s ∧ sti.tick < stc.tick ∧
      (beforeFile cause = true → stc.fs = sti.fs) ∧
      (duringCopy cause = true →
        stc.fs.isFile (localName filename (w.uuid sti.tick) src) = true) := by
    cases cause with
    | none =>
      obtain ⟨m, hres⟩ := hfail
      rw [assetClosure_unresolved _ w urlString filename k s pdi sti src m hsrc hres] at hcl
      simp only [Visit.next.injEq] at hcl
      obtain ⟨e1, _, e3⟩ := hcl
      subst e1 e3
      exact ⟨rfl, Nat.lt_succ_self _, fun _ => rfl, fun h => by simp [duringCopy] at h⟩
    | some e =>
      obtain ⟨uri, pdn, stn, hres, hnested⟩ := hfail
      rw [assetClosure_failed _ w urlString filename k s pdi sti src uri pdn e stn hsrc hres
        hnested] at hcl
      simp only [Visit.next.injEq] at hcl
      obtain ⟨e1, _, e3⟩ := hcl
      subst e1 e3
      have hfr := RetrieveResource_frame w fuel _ _ _ _ _ _ hnested
      have htick : sti.tick < stn.tick := hfr.1
      refine ⟨rfl, htick, ?_, ?_⟩
      · intro hb
        rcases RetrieveResource_ret_cases w fuel _ _ _ _ _ _ hnested with
          ⟨m, _, h2⟩ | ⟨m, _, h2⟩ | ⟨c, m, h⟩ | ⟨m, h⟩ | ⟨h, _⟩
        · exact h2
        · exact h2
        · simp only [Option.some.injEq] at h; subst h; simp [beforeFile] at hb
        · simp only [Option.some.injEq] at h; subst h; simp [beforeFile] at hb
        · rcases h with h | ⟨m, h⟩
          · simp at h
          · simp only [Option.some.injEq] at h; subst h; simp [beforeFile] at hb
      · intro hd
        rcases RetrieveResource_ret_cases w fuel _ _ _ _ _ _ hnested with
          ⟨m, h, _⟩ | ⟨m, h, _⟩ | ⟨c, m, h⟩ | ⟨m, h⟩ | ⟨_, h2⟩
        · simp only [Option.some.injEq] at h; subst h; simp [duringCopy] at hd
        · simp only [Option.some.injEq] at h; subst h; simp [duringCopy] at hd
        · simp only [Option.some.injEq] at h; subst h; simp [duringCopy] at hd
        · simp only [Option.some.injEq] at h; subst h; simp [duringCopy] at hd
        · exact h2
  obtain ⟨e1, htick, hbefore, hcopy⟩ := hvisit
  subst e1
  refine ⟨out, st3, hrw, hfile, hget1, ?_, fun hd => rb.1 _ (hcopy hd)⟩
  intro hb hfresh huniq hlen
  cases hfin : st1.fs.isFile (localName filename (w.uuid sti.tick) src) with
  | false => rfl
  | true =>
    exfalso
    -- a file at the local name was created at or below a local name drawn at tick `t`
    have hclash : ∀ (t : Nat) (src2 rest : String), st.tick ≤ t → t < st1.tick →
        t ≠ sti.tick →
        localName filename (w.uuid sti.tick) src ≠ localName filename (w.uuid t) src2 ++ rest := by
      intro t src2 rest h1 h2 h3 heq
      exact huniq t h1 h2 h3 (localName_clash _ _ _ _ _ _ heq (hlen t h1 h2))
    rcases rb.2.2 _ hfin with h | h | ⟨t, src2, rest, h1, h2, heq⟩
    · rw [hbefore hb] at h
      rcases ra.2.2 _ h with h | h | ⟨t, src2, rest, h1, h2, heq⟩
      · rw [hfresh] at h; exact absurd h (by simp)
      · exact localName_ne_target _ _ _ h
      · exact hclash t src2 rest h1 (by have := rb.2.1; omega) (by omega) heq
    · exact localName_ne_target _ _ _ h
    · exact hclash t src2 rest (by have := ra.2.1; omega) h2 (by omega) heq

/-! ### Runs of the model on concrete pages -/

theorem RetrieveResource_rewrites_fetched_asset_witness :
    ∃ out st3 html,
      rewriteAssets (RetrieveResource mirrorWorld 1) mirrorWorld "http://h/p" "output/h/p.html"
        [{ tag := "img", attrs := [("src", "a.png")] }]
        (startPageData [{ tag := "img", attrs := [("src", "a.png")] }])
        (assetsStart mirrorWorld ⟨[], 0⟩ "output/h/p.html")
        = Visit.next out
            { Links := [], Images := ["output/h/p.html-res/u3.png"], Stylesheets := [],
              Javascripts := [] } st3 ∧
      mirrorWorld.render out = Except.ok html ∧
      FS.get [("output/h/p.html", Node.file "<img src=output/h/p.html-res/u3.png>"),
          ("output/h/p.html-res/u3.png", Node.file "PNG"),
          ("output/h/p.html-res/u3.png", Node.file ""),
          ("output/h/p.html-res", Node.dir),
          ("output/h/p.html", Node.file "")] "output/h/p.html" = some (Node.file html) ∧
      (out.get? 0).bind (fun e => e.Attr "src") = some "output/h/p.html-res/u3.png" ∧
      "output/h/p.html-res/u3.png" ∈ ["output/h/p.html-res/u3.png"] ∧
      FS.isFile [("output/h/p.html", Node.file "<img src=output/h/p.html-res/u3.png>"),
          ("output/h/p.html-res/u3.png", Node.file "PNG"),
          ("output/h/p.html-res/u3.png", Node.file ""),
          ("output/h/p.html-res", Node.dir),
          ("output/h/p.html", Node.file "")] "output/h/p.html-res/u3.png" = true :=
  RetrieveResource_rewrites_fetched_asset mirrorWorld 1 ⟨[], 0⟩
    ⟨[("output/h/p.html", Node.file "<img src=output/h/p.html-res/u3.png>"),
      ("output/h/p.html-res/u3.png", Node.file "PNG"),
      ("output/h/p.html-res/u3.png", Node.file ""),
      ("output/h/p.html-res", Node.dir),
      ("output/h/p.html", Node.file "")], 8⟩
    "http://h/p" "output/h/p.html" (okResponse "<img src=a.png>")
    [{ tag := "img", attrs := [("src", "a.png")] }]
    { Links := [], Images := ["output/h/p.html-res/u3.png"], Stylesheets := [],
      Javascripts := [] }
    (by decide) rfl rfl (by decide)
    AssetKind.img 0 { tag := "img", attrs := [("src", "a.png")] } "a.png" "http://h/a.png"
    rfl rfl rfl
    [{ tag := "img", attrs := [("src", "a.png")] }]
    (startPageData [{ tag := "img", attrs := [("src", "a.png")] }]) demoStart rfl
    [] (startPageData [{ tag := "img", attrs := [("src", "a.png")] }]) demoStart rfl
    rfl emptyPageData
    ⟨[("output/h/p.html-res/u3.png", Node.file "PNG"),
      ("output/h/p.html-res/u3.png", Node.file ""),
      ("output/h/p.html-res", Node.dir),
      ("output/h/p.html", Node.file "")], 7⟩
    (by decide)

/-- Claim C2, the run of the code.  The page has one image; the nested fetch of the image
fails while copying, after one byte.  The nested call returns the error, the fetch of the page
returns no error, no file existed at the local name before, and afterwards a regular file
holding the byte written exists there. -/
theorem failed_copy_leaves_file :
    RetrieveResource brokenCopyWorld 2 ⟨[], 0⟩ "http://h/p" "output/h/p.html" =
      Result.ret
        { Links := [], Images := ["output/h/p.html-res/u3.png"], Stylesheets := [],
          Javascripts := [] }
        none
        ⟨[("output/h/p.html", Node.file "<img src=a.png>"),
          ("output/h/p.html-res/u3.png", Node.file "P"),
          ("output/h/p.html-res/u3.png", Node.file ""),
          ("output/h/p.html-res", Node.dir),
          ("output/h/p.html", Node.file "")], 8⟩ ∧
    RetrieveResource brokenCopyWorld 1 demoStart.step "http://h/a.png"
        "output/h/p.html-res/u3.png" =
      Result.ret emptyPageData
        (some (FetchError.saveURL "http://h/a.png" "output/h/p.html-res/u3.png" "disk full"))
        ⟨[("output/h/p.html-res/u3.png", Node.file "P"),
          ("output/h/p.html-res/u3.png", Node.file ""),
          ("output/h/p.html-res", Node.dir),
          ("output/h/p.html", Node.file "")], 7⟩ ∧
    FS.isFile [] "output/h/p.html-res/u3.png" = false ∧
    FS.isFile [("output/h/p.html", Node.file "<img src=a.png>"),
          ("output/h/p.html-res/u3.png", Node.file "P"),
          ("output/h/p.html-res/u3.png", Node.file ""),
          ("output/h/p.html-res", Node.dir),
          ("output/h/p.html", Node.file "")] "output/h/p.html-res/u3.png" = true ∧
    FS.get [("output/h/p.html", Node.file "<img src=a.png>"),
          ("output/h/p.html-res/u3.png", Node.file "P"),
          ("output/h/p.html-res/u3.png", Node.file ""),
          ("output/h/p.html-res", Node.dir),
          ("output/h/p.html", Node.file "")] "output/h/p.html-res/u3.png"
      = some (Node.file "P") := by
  decide

theorem RetrieveResource_failed_asset_witness :
    ∃ out st3,
      rewriteAssets (RetrieveResource missingImageWorld 1) missingImageWorld "http://h/p"
        "output/h/p.html"
        [{ tag := "img", attrs := [("src", "a.png")] },
         { tag := "script", attrs := [("src", "b.js")] }]
        (startPageData [{ tag := "img", attrs := [("src", "a.png")] },
         { tag := "script", attrs := [("src", "b.js")] }])
        (assetsStart missingImageWorld ⟨[], 0⟩ "output/h/p.html")
        = Visit.next out
            { Links := [], Images := ["output/h/p.html-res/u3.png"], Stylesheets := [],
              Javascripts := ["output/h/p.html-res/u5.js"] } st3 ∧
      out.get? 0 = some { tag := "img", attrs := [("src", "a.png")] } ∧
      FS.isFile
        [("output/h/p.html",
            Node.file "<img src=a.png><script src=output/h/p.html-res/u5.js>"),
          ("output/h/p.html-res/u5.js", Node.file "JS"),
          ("output/h/p.html-res/u5.js", Node.file ""),
          ("output/h/p.html-res", Node.dir),
          ("output/h/p.html", Node.file "")] "output/h/p.html-res/u3.png" = false := by
  obtain ⟨out, st3, h1, _, h3, h4, _⟩ :=
    RetrieveResource_failed_asset missingImageWorld 1 ⟨[], 0⟩
      ⟨[("output/h/p.html",
            Node.file "<img src=a.png><script src=output/h/p.html-res/u5.js>"),
        ("output/h/p.html-res/u5.js", Node.file "JS"),
        ("output/h/p.html-res/u5.js", Node.file ""),
        ("output/h/p.html-res", Node.dir),
        ("output/h/p.html", Node.file "")], 10⟩
      "http://h/p" "output/h/p.html" (okResponse "<img src=a.png><script src=b.js>")
      [{ tag := "img", attrs := [("src", "a.png")] },
       { tag := "script", attrs := [("src", "b.js")] }]
      { Links := [], Images := ["output/h/p.html-res/u3.png"], Stylesheets := [],
        Javascripts := ["output/h/p.html-res/u5.js"] }
      none (by decide) rfl (by decide) rfl rfl (by decide)
      AssetKind.img 0 { tag := "img", attrs := [("src", "a.png")] } "a.png" rfl rfl rfl
      [{ tag := "img", attrs := [("src", "a.png")] },
       { tag := "script", attrs := [("src", "b.js")] }]
      (startPageData [{ tag := "img", attrs := [("src", "a.png")] },
       { tag := "script", attrs := [("src", "b.js")] }]) demoStart rfl
      [] (startPageData [{ tag := "img", attrs := [("src", "a.png")] },
       { tag := "script", attrs := [("src", "b.js")] }]) demoStart rfl
      (some (FetchError.getURL "http://h/a.png" "no such host"))
      ⟨"http://h/a.png", emptyPageData,
        ⟨[("output/h/p.html-res", Node.dir), ("output/h/p.html", Node.file "")], 5⟩, rfl,
        by decide⟩
  refine ⟨out, st3, h1, h3, h4 rfl (by decide) ?_ ?_⟩
  · intro t _ h2 h3
    have h2 : t < 10 := h2
    have h3 : t ≠ 3 := h3
    interval_cases t <;> first | exact absurd rfl h3 | decide
  · intro t _ h2
    have h2 : t < 10 := h2
    interval_cases t <;> decide

/-! ### Status check, parse failure -/

/-- Claim C4, counterexample.  A response with status 201, which is a 2xx status, to a fetch
with an HTML target whose request and file creation succeed is rejected with a status
error. -/
theorem status_201_rejected :
    Result.isStatusError
        (RetrieveResource
          (demoWorld (oneResource ⟨201, "201 Created", ⟨"", none⟩⟩) (fun _ => none) (fun _ => none))
          1 ⟨[], 0⟩ "http://h/p" "output/h/p.html") = true ∧
      (200 : Int) ≤ 201 ∧ (201 : Int) ≤ 299 := by
  decide

/-- Claim C4, as amended.  For every fetch whose target path is classified as HTML and whose
request and file creation succeed, `RetrieveResource` returns a status error if and only if
the status code of the response is not 200. -/
theorem RetrieveResource_status_error_iff (w : World) (fuel : Nat) (st : State)
    (urlString filename : String) (response : Response)
    (hty : getExtension filename = ("html", true))
    (hget : w.httpGet st.tick urlString = Except.ok response)
    (hcreate : w.createErr (st.tick + 1) filename = none) :
    Result.isStatusError (RetrieveResource w (fuel + 1) st urlString filename) = true ↔
      response.StatusCode ≠ 200 := by
  have hty2 : (getExtension filename).2 = true ∧ (getExtension filename).1 = "html" := by
    rw [hty]; exact ⟨rfl, rfl⟩
  simp only [RetrieveResource, retrieveBody, hget]
  rw [osCreate_ok w st.step filename hcreate]
  simp only [hty2, and_self, if_true]
  by_cases hs : response.StatusCode = 200
  · simp only [hs, ne_eq, not_true_eq_false, if_false, iff_false]
    cases w.parse response.Body with
    | error e => simp [Result.isStatusError]
    | ok doc =>
      simp only
      cases rewriteAssets (RetrieveResource w fuel) w urlString filename doc _ _ with
      | exit s => simp [Result.isStatusError]
      | noFuel => simp [Result.isStatusError]
      | next d p s =>
        simp only
        cases w.render d with
        | error e => simp [Result.isStatusError]
        | ok html =>
          simp only
          cases hc : ioCopy w s filename html none with
          | mk s2 e2 =>
            cases e2 <;> simp [Result.isStatusError]
  · simp [hs, Result.isStatusError]

theorem RetrieveResource_status_error_iff_witness :
    Result.isStatusError
        (RetrieveResource
          (demoWorld (oneResource ⟨204, "204 No Content", ⟨"", none⟩⟩) (fun _ => none)
            (fun _ => none))
          1 ⟨[], 0⟩ "http://h/p" "output/h/p.html") = true ↔
      (204 : Int) ≠ 200 :=
  RetrieveResource_status_error_iff
    (demoWorld (oneResource ⟨204, "204 No Content", ⟨"", none⟩⟩) (fun _ => none) (fun _ => none))
    0 ⟨[], 0⟩ "http://h/p" "output/h/p.html" ⟨204, "204 No Content", ⟨"", none⟩⟩
    (by decide) rfl (by decide)

/-- Claim C5, the run of the code.  A fetch with an HTML target and a 404 response returns the
status error, and the target path, where no file existed before, holds an empty file
afterwards: the file is created before the status is checked. -/
theorem status_404_leaves_file :
    RetrieveResource
        (demoWorld (oneResource ⟨404, "404 Not Found", ⟨"gone", none⟩⟩) (fun _ => none)
          (fun _ => none))
        1 ⟨[], 0⟩ "http://h/p" "output/h/p.html" =
      Result.ret emptyPageData (some (FetchError.statusCode 404 "404 Not Found"))
        ⟨[("output/h/p.html", Node.file "")], 2⟩ ∧
    FS.isFile [] "output/h/p.html" = false ∧
    FS.isFile [("output/h/p.html", Node.file "")] "output/h/p.html" = true := by
  decide

/-- Claim C6, the run of the code.  A fetch with an HTML target whose response body fails to
parse does not return to its caller: it ends at `log.Fatal`, which terminates the process,
however deep the recursion is allowed to go. -/
theorem parse_failure_terminates_process :
    ∀ fuel : Nat,
      RetrieveResource
          (demoWorld (oneResource ⟨200, "200 OK", ⟨"<img src=a.p", some "unexpected EOF"⟩⟩)
            (fun _ => none) (fun _ => none))
          (fuel + 1) ⟨[], 0⟩ "http://h/p" "output/h/p.html" =
        Result.exit ⟨[("output/h/p.html-res", Node.dir), ("output/h/p.html", Node.file "")], 3⟩ := by
  intro fuel
  rfl

/-- Claim C7, the run of the code.  A page whose own request, file creation and parse
succeed, with an image whose reference ends in `.html` and whose body fails to parse: the
nested fetch ends at `log.Fatal`, so the fetch of the page does not return either. -/
theorem nested_parse_failure_stops_parent :
    ∀ fuel : Nat,
      RetrieveResource
          (demoWorld
            (pageAndAsset ⟨200, "200 OK", ⟨"<img src=x.html>", none⟩⟩ "x.html"
              ⟨200, "200 OK", ⟨"<html", some "connection reset"⟩⟩)
            (fun _ => none) (fun _ => none))
          (fuel + 2) ⟨[], 0⟩ "http://h/p" "output/h/p.html" =
        Result.exit
          ⟨[("output/h/p.html-res/u3.html-res", Node.dir),
            ("output/h/p.html-res/u3.html", Node.file ""),
            ("output/h/p.html-res", Node.dir), ("output/h/p.html", Node.file "")], 7⟩ := by
  intro fuel
  rfl

end HttpFetch
